import Mathlib

/-!
Verification of the rule-based access-control filter engine of
obsidian-local-rest-api-ng (src/filters/*).

The TypeScript sources are shallowly embedded:
 - strings are Lean Strings; character-level work is done on the
   underlying List Char with structural functions (JavaScript split,
   trim, indexOf, startsWith, includes are re-implemented faithfully);
 - the Obsidian vault and metadata cache, the minimatch glob tester
   and the JavaScript RegExp engine are external collaborators; they
   enter the embedding as an explicit environment of oracle functions
   (a regular expression whose construction throws is modelled by the
   compile oracle returning none, mirroring the try/catch blocks);
 - async functions are pure (awaits carry no effects in the sources);
 - JavaScript truthiness on optional strings and arrays is expanded
   at each use site exactly as the source checks it.
-/

namespace ObsidianFilters

/-- JavaScript whitespace as used by split and trim in the sources. -/
def isWsChar (c : Char) : Bool :=
  c = ' ' || c = '\t' || c = '\n' || c = '\r'

/-- Left-and-right trim on character lists (String.prototype.trim). -/
def trimList (l : List Char) : List Char :=
  ((l.dropWhile isWsChar).reverse.dropWhile isWsChar).reverse

/-- One pass of String.prototype.split(sep) for a single-character
separator: empty fields are kept, as in JavaScript. -/
def splitCharGo (sep : Char) : List Char → List Char → List (List Char)
  | [], acc => [acc.reverse]
  | c :: cs, acc =>
    if c = sep then acc.reverse :: splitCharGo sep cs []
    else splitCharGo sep cs (c :: acc)

def splitChar (sep : Char) (l : List Char) : List (List Char) :=
  splitCharGo sep l []

/-- String.prototype.split on the regular expression of one-or-more
whitespace characters: runs collapse, a leading or trailing run
produces an empty field, as in JavaScript. -/
def splitWsGo : List Char → List Char → List (List Char)
  | [], acc => [acc.reverse]
  | c :: cs, acc =>
    if isWsChar c then acc.reverse :: splitWsSkip cs
    else splitWsGo cs (c :: acc)
where
  splitWsSkip : List Char → List (List Char)
  | [] => [[]]
  | c :: cs => if isWsChar c then splitWsSkip cs else splitWsGo cs [c]

def splitWs (l : List Char) : List (List Char) :=
  splitWsGo l []

/-- indexOf for a single character, as an optional position. -/
def idxOfChar (c : Char) : List Char → Option Nat
  | [] => none
  | x :: xs => if x = c then some 0 else (idxOfChar c xs).map (· + 1)

/-- String.prototype.includes / indexOf(sub) at some position. -/
def hasSub (needle : List Char) : List Char → Bool
  | [] => needle.isEmpty
  | c :: cs => needle.isPrefixOf (c :: cs) || hasSub needle cs

def lowerStr (s : String) : String := ⟨s.data.map Char.toLower⟩

def upperStr (s : String) : String := ⟨s.data.map Char.toUpper⟩

def trimStr (s : String) : String := ⟨trimList s.data⟩

/-- Model of the data in one Obsidian MetadataCache entry that
collectFileTags reads: inline tag occurrences (cache.tags[].tag) and
optional frontmatter tags (cache.frontmatter?.tags). -/
structure FileCache where
  inlineTags : List String
  fmTags : Option (List String)
deriving DecidableEq

/-- The external collaborators of one evaluation: the vault (file
lookup and content read), the metadata cache, the minimatch glob
tester and the JavaScript regular-expression engine.  readFile p =
none models vault.cachedRead throwing; regexCompile p = none models
the RegExp constructor throwing on an invalid pattern, and otherwise
yields the test function of the compiled expression. -/
structure Env where
  hasFile : String → Bool
  fileCache : String → Option FileCache
  readFile : String → Option String
  glob : String → String → Bool
  regexCompile : String → Option (String → Bool)

/-- FilterMode from filters/types.ts. -/
inductive FilterMode where
  | allow
  | deny
deriving DecidableEq

def modeToString : FilterMode → String
  | .allow => "allow"
  | .deny => "deny"

/-- HttpMethod from filters/types.ts. -/
inductive HttpMethod where
  | GET
  | PUT
  | POST
  | PATCH
  | DELETE
deriving DecidableEq

def methodToString : HttpMethod → String
  | .GET => "GET"
  | .PUT => "PUT"
  | .POST => "POST"
  | .PATCH => "PATCH"
  | .DELETE => "DELETE"

/-- FilterRule from filters/types.ts.  methods = none models the
field being absent (undefined). -/
structure FilterRule where
  id : String
  mode : FilterMode
  pattern : String
  isRegex : Bool
  enabled : Bool
  description : String
  methods : Option (List HttpMethod) := none
  regexFlags : Option String := none
deriving DecidableEq

/-- FilterDecision from filters/types.ts. -/
structure FilterDecision where
  allowed : Bool
  reason : String
  matchedRule : Option FilterRule := none
  filterType : Option String := none
deriving DecidableEq

/-- The four matcher kinds of the rule file. -/
inductive MatcherKind where
  | folder
  | name
  | tag
  | keyword
deriving DecidableEq

def kindToString : MatcherKind → String
  | .folder => "folder"
  | .name => "name"
  | .tag => "tag"
  | .keyword => "keyword"

/-- ParsedRules from rules-file.ts: enabled rules grouped by kind. -/
structure ParsedRules where
  folder : List FilterRule
  name : List FilterRule
  tag : List FilterRule
  keyword : List FilterRule
deriving DecidableEq

def rulesOf (fr : ParsedRules) : MatcherKind → List FilterRule
  | .folder => fr.folder
  | .name => fr.name
  | .tag => fr.tag
  | .keyword => fr.keyword

/-- RuleEntry from rules-file.ts: a parsed rule with its kind and
0-based source line number, for UI editing. -/
structure RuleEntry where
  rule : FilterRule
  filterType : MatcherKind
  lineNumber : Nat
deriving DecidableEq

/-! ## Folder and document-name matchers
(folder-filter.ts checkFolderFilter, document-name-filter.ts
checkDocumentNameFilter) -/

/-- The per-rule match test of checkFolderFilter: a regex rule tests
the compiled expression against the full path (an invalid pattern is
caught and treated as no match), a literal rule runs
minimatch(filePath, pattern, dot: true). -/
def folderRuleMatched (env : Env) (filePath : String) (r : FilterRule) : Bool :=
  if r.isRegex then
    match env.regexCompile r.pattern with
    | none => false
    | some test => test filePath
  else
    env.glob filePath r.pattern

def folderDecision (r : FilterRule) : FilterDecision :=
  { allowed := r.mode = FilterMode.allow
    reason := "Folder filter: " ++ modeToString r.mode ++ " by pattern \"" ++ r.pattern ++ "\""
    matchedRule := some r
    filterType := some "folder" }

/-- checkFolderFilter: first enabled matching rule wins. -/
def checkFolderFilter (env : Env) (filePath : String) : List FilterRule → Option FilterDecision
  | [] => none
  | r :: rs =>
    if !r.enabled then checkFolderFilter env filePath rs
    else if folderRuleMatched env filePath r then some (folderDecision r)
    else checkFolderFilter env filePath rs

/-- The basename extraction of checkDocumentNameFilter: the substring
after the last "/" (the whole path when there is none). -/
def basenameOf (filePath : String) : String :=
  match idxOfChar '/' filePath.data.reverse with
  | none => filePath
  | some i => ⟨(filePath.data.reverse.take i).reverse⟩

def nameDecision (r : FilterRule) : FilterDecision :=
  { allowed := r.mode = FilterMode.allow
    reason := "Document name filter: " ++ modeToString r.mode ++ " by pattern \"" ++ r.pattern ++ "\""
    matchedRule := some r
    filterType := some "document-name" }

/-- The per-rule match test of checkDocumentNameFilter, against the
basename only. -/
def nameRuleMatched (env : Env) (basename : String) (r : FilterRule) : Bool :=
  if r.isRegex then
    match env.regexCompile r.pattern with
    | none => false
    | some test => test basename
  else
    env.glob basename r.pattern

def checkNameLoop (env : Env) (basename : String) : List FilterRule → Option FilterDecision
  | [] => none
  | r :: rs =>
    if !r.enabled then checkNameLoop env basename rs
    else if nameRuleMatched env basename r then some (nameDecision r)
    else checkNameLoop env basename rs

/-- checkDocumentNameFilter: extracts the basename, then first
enabled matching rule wins. -/
def checkDocumentNameFilter (env : Env) (filePath : String) (rules : List FilterRule) :
    Option FilterDecision :=
  checkNameLoop env (basenameOf filePath) rules

/-! ## Tag matcher (tag-filter.ts) -/

/-- The discriminated result of collectFileTags. -/
inductive TagResult where
  | found (tags : List String)
  | fileNotFound
  | cacheUnavailable
deriving DecidableEq

/-- collectFileTags: inline tags, then frontmatter tags with a "#"
added when missing, all lower-cased.  fileNotFound when the vault has
no such file, cacheUnavailable when the metadata cache has no entry. -/
def collectFileTags (env : Env) (filePath : String) : TagResult :=
  if !env.hasFile filePath then .fileNotFound
  else
    match env.fileCache filePath with
    | none => .cacheUnavailable
    | some cache =>
      let t1 := cache.inlineTags
      let t2 := match cache.fmTags with
        | none => []
        | some l => l.map (fun t => if ("#".data).isPrefixOf t.data then t else "#" ++ t)
      .found ((t1 ++ t2).map lowerStr)

/-- checkGlobalTags: runs before all other filters.  A missing file
gives no opinion; an existing file with no cache entry fails closed
when a global tag is configured; otherwise the deny tag wins over the
allow tag. -/
def checkGlobalTags (env : Env) (filePath : String)
    (globalAllowTag globalDenyTag : String) : Option FilterDecision :=
  match collectFileTags env filePath with
  | .fileNotFound => none
  | .cacheUnavailable =>
    if globalDenyTag != "" || globalAllowTag != "" then
      some { allowed := false
             reason := "Tag cache unavailable — denied (global tags configured)"
             filterType := some "tag" }
    else none
  | .found lowerTags =>
    if globalDenyTag != "" && lowerTags.contains (lowerStr globalDenyTag) then
      some { allowed := false
             reason := "Global deny tag \"" ++ globalDenyTag ++ "\" present"
             filterType := some "tag" }
    else if globalAllowTag != "" && lowerTags.contains (lowerStr globalAllowTag) then
      some { allowed := true
             reason := "Global allow tag \"" ++ globalAllowTag ++ "\" present"
             filterType := some "tag" }
    else none

/-- The per-rule match test of checkTagFilter: a pattern containing
"+" is compound AND logic over its "+"-separated, trimmed,
lower-cased tag tokens; otherwise a single lower-cased tag equality. -/
def tagRuleMatched (lowerTags : List String) (r : FilterRule) : Bool :=
  if r.pattern.data.contains '+' then
    let requiredTags := (splitChar '+' r.pattern.data).map
      (fun t => lowerStr (trimStr ⟨t⟩))
    requiredTags.all (fun rt => lowerTags.any (fun t => t == rt))
  else
    let ruleTag := lowerStr r.pattern
    lowerTags.any (fun t => t == ruleTag)

def tagDecision (r : FilterRule) : FilterDecision :=
  { allowed := r.mode = FilterMode.allow
    reason := "Tag filter: " ++ modeToString r.mode ++ " by tag \"" ++ r.pattern ++ "\""
    matchedRule := some r
    filterType := some "tag" }

def tagLoop (lowerTags : List String) : List FilterRule → Option FilterDecision
  | [] => none
  | r :: rs =>
    if !r.enabled then tagLoop lowerTags rs
    else if tagRuleMatched lowerTags r then some (tagDecision r)
    else tagLoop lowerTags rs

/-- The fail-closed decision of checkTagFilter on a cache miss. -/
def tagUnavailableDecision : FilterDecision :=
  { allowed := false
    reason := "Tag cache unavailable — denied (tag rules configured)"
    filterType := some "tag" }

/-- checkTagFilter: missing file gives no opinion, cache miss fails
closed, else first enabled matching custom tag rule wins. -/
def checkTagFilter (env : Env) (filePath : String) (rules : List FilterRule) :
    Option FilterDecision :=
  match collectFileTags env filePath with
  | .fileNotFound => none
  | .cacheUnavailable => some tagUnavailableDecision
  | .found lowerTags => tagLoop lowerTags rules

/-! ## Keyword matcher (keyword-filter.ts) -/

/-- The per-rule match test of checkKeywordFilter: regex over the
full content (invalid pattern caught as no match), else
case-sensitive substring containment (content.indexOf). -/
def keywordRuleMatched (env : Env) (content : String) (r : FilterRule) : Bool :=
  if r.isRegex then
    match env.regexCompile r.pattern with
    | none => false
    | some test => test content
  else
    hasSub r.pattern.data content.data

def keywordDecision (r : FilterRule) : FilterDecision :=
  { allowed := r.mode = FilterMode.allow
    reason := "Keyword filter: " ++ modeToString r.mode ++ " by pattern \"" ++ r.pattern ++ "\""
    matchedRule := some r
    filterType := some "keyword" }

def keywordLoop (env : Env) (content : String) : List FilterRule → Option FilterDecision
  | [] => none
  | r :: rs =>
    if !r.enabled then keywordLoop env content rs
    else if keywordRuleMatched env content r then some (keywordDecision r)
    else keywordLoop env content rs

/-- The fail-closed decision of checkKeywordFilter on a read error. -/
def readErrorDecision : FilterDecision :=
  { allowed := false
    reason := "File read error"
    filterType := some "keyword" }

/-- checkKeywordFilter: missing file gives no opinion, a read error
fails closed, else first enabled matching keyword rule over the file
content wins. -/
def checkKeywordFilter (env : Env) (filePath : String) (rules : List FilterRule) :
    Option FilterDecision :=
  if !env.hasFile filePath then none
  else
    match env.readFile filePath with
    | none => some readErrorDecision
    | some content => keywordLoop env content rules

/-! ## Filter engine (filter-engine.ts) -/

/-- The evaluateFile settings snapshot. -/
structure FilterSettings where
  defaultPolicy : FilterMode
  globalAllowTag : String
  globalDenyTag : String
deriving DecidableEq

/-- FilterEngine.methodAllowed: a missing rule or a missing/empty
methods list allows all methods; otherwise membership of the
upper-cased method. -/
def methodAllowed (rule : Option FilterRule) (method : String) : Bool :=
  match rule with
  | none => true
  | some r =>
    match r.methods with
    | none => true
    | some ms =>
      if ms.isEmpty then true
      else (ms.map methodToString).contains (upperStr method)

/-- JavaScript falsiness of the optional method argument: absent or
the empty string. -/
def noMethod : Option String → Bool
  | none => true
  | some m => m == ""

/-- One stage of the evaluateFile chain: run the matcher of the given
kind when its rule list is non-empty, and return its decision when
the method gate passes. -/
def runMatcher (env : Env) (filePath : String) (rules : List FilterRule) :
    MatcherKind → Option FilterDecision
  | .folder => checkFolderFilter env filePath rules
  | .name => checkDocumentNameFilter env filePath rules
  | .tag => checkTagFilter env filePath rules
  | .keyword => checkKeywordFilter env filePath rules

/-- The folder, name, tag, keyword stages of evaluateFile in order:
each stage is guarded by a non-empty rule list, and a stage decision
is returned only when the method gate passes; otherwise the chain
proceeds to the next stage. -/
def evalStages (env : Env) (filePath : String) (method : Option String)
    (fr : ParsedRules) : List MatcherKind → Option FilterDecision
  | [] => none
  | k :: ks =>
    let rs := rulesOf fr k
    if rs.isEmpty then evalStages env filePath method fr ks
    else
      match runMatcher env filePath rs k with
      | none => evalStages env filePath method fr ks
      | some d =>
        if noMethod method || methodAllowed d.matchedRule (method.getD "") then some d
        else evalStages env filePath method fr ks

/-- The default-policy decision of evaluateFile stage 5. -/
def defaultDecision (settings : FilterSettings) : FilterDecision :=
  { allowed := settings.defaultPolicy = FilterMode.allow
    reason := "Default policy: " ++ modeToString settings.defaultPolicy }

/-- The stage order of evaluateFile. -/
def stageOrder : List MatcherKind :=
  [MatcherKind.folder, MatcherKind.name, MatcherKind.tag, MatcherKind.keyword]

/-- FilterEngine.evaluateFile: global tags first, then the four
guarded stages, then the default policy.  fileRules = none models a
missing access-rules.conf (this.fileRules === null). -/
def evaluateFile (env : Env) (filePath : String) (settings : FilterSettings)
    (method : Option String) (fileRules : Option ParsedRules) : FilterDecision :=
  match checkGlobalTags env filePath settings.globalAllowTag settings.globalDenyTag with
  | some d => d
  | none =>
    match fileRules with
    | none => defaultDecision settings
    | some fr =>
      match evalStages env filePath method fr stageOrder with
      | some d => d
      | none => defaultDecision settings

/-- FilterEngine.filterPaths: evaluate each path with method "GET",
map to the path or null, then drop the nulls. -/
def filterPaths (env : Env) (settings : FilterSettings)
    (fileRules : Option ParsedRules) (paths : List String) : List String :=
  (paths.map (fun p =>
    if (evaluateFile env p settings (some "GET") fileRules).allowed then some p
    else none)).filterMap id

/-! ## Rule file parser and serializer (rules-file.ts) -/

/-- The disabled-rule line marker, DISABLED_PREFIX in the source
(the trailing space included). -/
def disabledMarker : String := "#!disabled "

def isFlagChar (c : Char) : Bool :=
  c = 'g' || c = 'i' || c = 'm' || c = 's' || c = 'u' || c = 'y'

/-- The trailing regex-flag extraction of parseRuleLine: the
JavaScript match against the anchored pattern of a slash followed by
one or more flag letters at the end of the string.  Returns the
pattern with the suffix removed and the flag letters (empty when
there is no such suffix). -/
def extractFlags (l : List Char) : List Char × List Char :=
  if (l.reverse.takeWhile isFlagChar).isEmpty then (l, [])
  else if (l.reverse.drop (l.reverse.takeWhile isFlagChar).length).head? = some '/' then
    ((l.reverse.drop (l.reverse.takeWhile isFlagChar).length).tail.reverse,
      (l.reverse.takeWhile isFlagChar).reverse)
  else (l, [])

def parseModeTok (tok : List Char) : Option FilterMode :=
  let m := tok.map Char.toLower
  if m = "allow".data then some .allow
  else if m = "deny".data then some .deny
  else none

def parseKindTok (tok : List Char) : Option MatcherKind :=
  let t := tok.map Char.toLower
  if t = "folder".data then some .folder
  else if t = "name".data then some .name
  else if t = "tag".data then some .tag
  else if t = "keyword".data then some .keyword
  else none

/-- One token of the METHODS list after trim and upper-casing:
membership of VALID_METHODS, as the typed method. -/
def parseMethodTok (tok : List Char) : Option HttpMethod :=
  let t := (trimList tok).map Char.toUpper
  if t = "GET".data then some .GET
  else if t = "PUT".data then some .PUT
  else if t = "POST".data then some .POST
  else if t = "PATCH".data then some .PATCH
  else if t = "DELETE".data then some .DELETE
  else none

/-- The methods parsing of parseRuleLine: split on commas, trim and
upper-case each token, keep only valid methods, and treat an empty
result as an absent methods field. -/
def parseMethodsStr (s : List Char) : Option (List HttpMethod) :=
  let ms := (splitChar ',' s).filterMap parseMethodTok
  if ms.isEmpty then none else some ms

/-- The pattern/methods split of the remainder in parseRuleLine: a
leading double quote opens a quoted pattern ended by the next double
quote (an unterminated quote invalidates the line, and the trimmed
text after the closing quote is the methods field when non-empty);
otherwise the remainder splits on whitespace into the pattern and an
optional methods token. -/
def splitPatternMethods (tr : List Char) : Option (List Char × Option (List Char)) :=
  if tr.head? = some '"' then
    match idxOfChar '"' tr.tail with
    | none => none
    | some j =>
      some (tr.tail.take j,
        if (trimList (tr.tail.drop (j + 1))).isEmpty then none
        else some (trimList (tr.tail.drop (j + 1))))
  else
    some ((splitWs tr).headD [], (splitWs tr).get? 1)

/-- The tail of parseRuleLine after the three tokens are separated:
pattern/methods split of the remainder, empty-pattern check, mode and
kind validation, tilde and flag handling, methods parsing, and the
rule construction. -/
def parseRuleRest (enabled : Bool) (lineIndex : Nat)
    (modeTok typeTok remainder : List Char) : Option RuleEntry :=
  match splitPatternMethods (trimList remainder) with
  | none => none
  | some (pattern, methodsStr) =>
    if pattern.isEmpty then none
    else
      match parseModeTok modeTok with
      | none => none
      | some mode =>
        match parseKindTok typeTok with
        | none => none
        | some kind =>
          some
            { rule :=
                { id := "rule-line-" ++ Nat.repr (lineIndex + 1)
                  mode := mode
                  pattern := ⟨(if pattern.head? = some '~' then
                    extractFlags (pattern.drop 1) else (pattern, [])).1⟩
                  isRegex := pattern.head? = some '~'
                  enabled := enabled
                  description := "line " ++ Nat.repr (lineIndex + 1)
                  methods := match methodsStr with
                    | none => none
                    | some s => if s.isEmpty then none else parseMethodsStr s
                  regexFlags :=
                    if (if pattern.head? = some '~' then
                        extractFlags (pattern.drop 1) else (pattern, [])).2.isEmpty
                    then none
                    else some ⟨(if pattern.head? = some '~' then
                      extractFlags (pattern.drop 1) else (pattern, [])).2⟩ }
              filterType := kind
              lineNumber := lineIndex }

/-- The token phase of parseRuleLine: the JavaScript match against
one-or-more non-space run, space run, non-space run, space run,
arbitrary remainder (greedy, anchored), failing when fewer than three
fields are present. -/
def parseRuleContent (enabled : Bool) (lineIndex : Nat) (content : List Char) :
    Option RuleEntry :=
  let modeTok := content.takeWhile (fun c => !isWsChar c)
  let r1 := content.dropWhile (fun c => !isWsChar c)
  let w1 := r1.takeWhile isWsChar
  let r2 := r1.dropWhile isWsChar
  let typeTok := r2.takeWhile (fun c => !isWsChar c)
  let r3 := r2.dropWhile (fun c => !isWsChar c)
  let w2 := r3.takeWhile isWsChar
  let remainder := r3.dropWhile isWsChar
  if modeTok.isEmpty || w1.isEmpty || typeTok.isEmpty || w2.isEmpty then none
  else parseRuleRest enabled lineIndex modeTok typeTok remainder

/-- parseRuleLine on the character list of an already-trimmed line:
the disabled marker is stripped and the rest trimmed before the
grammar applies. -/
def parseRuleLineCore (line : List Char) (lineIndex : Nat) : Option RuleEntry :=
  if disabledMarker.data.isPrefixOf line then
    parseRuleContent false lineIndex (trimList (line.drop disabledMarker.data.length))
  else parseRuleContent true lineIndex line

def parseRuleLine (line : String) (lineIndex : Nat) : Option RuleEntry :=
  parseRuleLineCore line.data lineIndex

def addRule (g : ParsedRules) (k : MatcherKind) (r : FilterRule) : ParsedRules :=
  match k with
  | .folder => { g with folder := g.folder ++ [r] }
  | .name => { g with name := g.name ++ [r] }
  | .tag => { g with tag := g.tag ++ [r] }
  | .keyword => { g with keyword := g.keyword ++ [r] }

/-- The per-line loop of parseRulesFile: trim, skip empty lines and
comments that do not carry the disabled marker, parse, record the
entry, and group only enabled rules. -/
def parseLinesLoop (g : ParsedRules) (es : List RuleEntry) (i : Nat) :
    List (List Char) → ParsedRules × List RuleEntry
  | [] => (g, es)
  | l :: ls =>
    let line := trimList l
    if line.isEmpty then parseLinesLoop g es (i + 1) ls
    else if ("#".data).isPrefixOf line && !(disabledMarker.data.isPrefixOf line) then
      parseLinesLoop g es (i + 1) ls
    else
      match parseRuleLineCore line i with
      | none => parseLinesLoop g es (i + 1) ls
      | some entry =>
        parseLinesLoop
          (if entry.rule.enabled then addRule g entry.filterType entry.rule else g)
          (es ++ [entry]) (i + 1) ls

/-- parseRulesFile: split on newlines, then the per-line loop. -/
def parseRulesFile (content : String) : ParsedRules × List RuleEntry :=
  parseLinesLoop ⟨[], [], [], []⟩ [] 0 (splitChar '\n' content.data)

/-- JavaScript Array.prototype.join(",") over strings. -/
def joinComma : List String → String
  | [] => ""
  | [s] => s
  | s :: ss => s ++ "," ++ joinComma ss

/-- serializeRule: marker for disabled rules, two-space separated
mode, kind and pattern, the tilde and flag suffix re-added for regex
rules, the pattern quoted when it contains a space, and the methods
appended comma-separated when present. -/
def serializeRule (filterType : String) (r : FilterRule) : String :=
  let pre := if r.enabled then "" else disabledMarker
  let flagSuffix := match r.regexFlags with
    | some f => if r.isRegex && f != "" then "/" ++ f else ""
    | none => ""
  let rawPattern := if r.isRegex then "~" ++ r.pattern ++ flagSuffix else r.pattern
  let patternStr :=
    if rawPattern.data.contains ' ' then "\"" ++ rawPattern ++ "\"" else rawPattern
  let methodStr := match r.methods with
    | some ms =>
      if ms.isEmpty then ""
      else "  " ++ joinComma (ms.map methodToString)
    | none => ""
  pre ++ modeToString r.mode ++ "  " ++ filterType ++ "  " ++ patternStr ++ methodStr

/-! ## Theorems -/

/-- With no global tags configured the global-tag stage never has an
opinion, whatever the metadata state. -/
theorem checkGlobalTags_no_config (env : Env) (filePath : String) :
    checkGlobalTags env filePath "" "" = none := by
  cases h : collectFileTags env filePath <;> simp [checkGlobalTags, h]

/-- C8: For every input sequence of candidate paths and fixed method,
FilterPaths returns exactly the subsequence of inputs whose
evaluation yields allowed = true, preserving the relative order of
the input sequence: it equals the order-preserving List.filter of the
inputs by the evaluation verdict, and is a sublist of the inputs. -/
theorem filterPaths_exact (env : Env) (settings : FilterSettings)
    (fileRules : Option ParsedRules) (paths : List String) :
    filterPaths env settings fileRules paths
      = paths.filter (fun p => (evaluateFile env p settings (some "GET") fileRules).allowed)
    ∧ List.Sublist (filterPaths env settings fileRules paths) paths := by
  have h : filterPaths env settings fileRules paths
      = paths.filter (fun p => (evaluateFile env p settings (some "GET") fileRules).allowed) := by
    induction paths with
    | nil => rfl
    | cons p ps ih =>
      by_cases hp : (evaluateFile env p settings (some "GET") fileRules).allowed
      · simp [filterPaths, List.filter, hp] at ih ⊢
        exact ih
      · simp only [Bool.not_eq_true] at hp
        simp [filterPaths, List.filter, hp] at ih ⊢
        exact ih
  exact ⟨h, h ▸ List.filter_sublist paths⟩

/-- C1: For every candidate whose tag set is retrievable, a
configured global deny-tag present in the tag set forces
Evaluate to allowed = false, and a configured global allow-tag
present with the deny-tag absent forces allowed = true — in both
cases for every RuleSet, method and default policy, and with the deny
verdict winning when both tags are present (the first conjunct
applies regardless of the allow-tag). -/
theorem global_tags_override (env : Env) (filePath : String) (settings : FilterSettings)
    (method : Option String) (fileRules : Option ParsedRules) (ts : List String)
    (hfound : collectFileTags env filePath = .found ts) :
    (settings.globalDenyTag ≠ "" →
      ts.contains (lowerStr settings.globalDenyTag) = true →
      (evaluateFile env filePath settings method fileRules).allowed = false)
    ∧ (settings.globalAllowTag ≠ "" →
      ts.contains (lowerStr settings.globalAllowTag) = true →
      (settings.globalDenyTag = "" ∨ ts.contains (lowerStr settings.globalDenyTag) = false) →
      (evaluateFile env filePath settings method fileRules).allowed = true) := by
  constructor
  · intro hcfg hmem
    have hmem' : lowerStr settings.globalDenyTag ∈ ts := by simpa using hmem
    simp [evaluateFile, checkGlobalTags, hfound, hcfg, hmem']
  · intro hcfg hmem habs
    have hmem' : lowerStr settings.globalAllowTag ∈ ts := by simpa using hmem
    have hdeny : ¬(¬settings.globalDenyTag = "" ∧ lowerStr settings.globalDenyTag ∈ ts) := by
      rcases habs with h | h
      · simp [h]
      · intro hcontra
        have : ts.contains (lowerStr settings.globalDenyTag) = true := by
          simpa using hcontra.2
        rw [h] at this
        exact Bool.false_ne_true this
    simp [evaluateFile, checkGlobalTags, hfound, hcfg, hmem', hdeny]

/-- C2: With tag metadata unavailable, the global-tag stage denies as
soon as a global tag is configured and the custom tag stage denies
when tag rules are configured, both with a reason mentioning
unavailability and no matched rule; a content read failure makes the
keyword stage deny with the distinct reason "File read error"; and a
file-not-found outcome from either provider yields no opinion from
the corresponding stage. -/
theorem fail_closed_stages :
    (∀ (env : Env) (fp allowT denyT : String),
      collectFileTags env fp = .cacheUnavailable → (denyT ≠ "" ∨ allowT ≠ "") →
      ∃ d, checkGlobalTags env fp allowT denyT = some d ∧ d.allowed = false ∧
        hasSub "unavailable".data d.reason.data = true ∧ d.matchedRule = none)
    ∧ (∀ (env : Env) (fp : String) (rules : List FilterRule),
      collectFileTags env fp = .cacheUnavailable → rules ≠ [] →
      checkTagFilter env fp rules = some tagUnavailableDecision ∧
        tagUnavailableDecision.allowed = false ∧
        hasSub "unavailable".data tagUnavailableDecision.reason.data = true ∧
        tagUnavailableDecision.matchedRule = none)
    ∧ (∀ (env : Env) (fp : String) (rules : List FilterRule),
      env.hasFile fp = true → env.readFile fp = none → rules ≠ [] →
      checkKeywordFilter env fp rules = some readErrorDecision ∧
        readErrorDecision.allowed = false ∧
        readErrorDecision.reason = "File read error" ∧
        readErrorDecision.reason ≠ tagUnavailableDecision.reason)
    ∧ (∀ (env : Env) (fp allowT denyT : String) (rules : List FilterRule),
      collectFileTags env fp = .fileNotFound →
      checkGlobalTags env fp allowT denyT = none ∧ checkTagFilter env fp rules = none)
    ∧ (∀ (env : Env) (fp : String) (rules : List FilterRule),
      env.hasFile fp = false → checkKeywordFilter env fp rules = none) := by
  refine ⟨?_, ?_, ?_, ?_, ?_⟩
  · intro env fp allowT denyT hu hcfg
    have hb : (denyT != "" || allowT != "") = true := by
      rcases hcfg with h | h <;> simp [bne_iff_ne, h]
    have heq : checkGlobalTags env fp allowT denyT = some
        { allowed := false
          reason := "Tag cache unavailable — denied (global tags configured)"
          matchedRule := none
          filterType := some "tag" } := by
      simp [checkGlobalTags, hu, hb]
    exact ⟨_, heq, rfl, by decide, rfl⟩
  · intro env fp rules hu _
    exact ⟨by simp [checkTagFilter, hu], rfl, by decide, rfl⟩
  · intro env fp rules hf hr _
    exact ⟨by simp [checkKeywordFilter, hf, hr], rfl, rfl, by decide⟩
  · intro env fp allowT denyT rules hnf
    exact ⟨by simp [checkGlobalTags, hnf], by simp [checkTagFilter, hnf]⟩
  · intro env fp rules hf
    simp [checkKeywordFilter, hf]

/-- C6: Each matcher returns the verdict of the first enabled rule in
file order whose pattern matches the candidate, and the rules after
that first match never influence the Decision (the suffix after the
match is universally quantified), shown for the folder matcher over
the full path and for the custom tag matcher over a retrieved tag
set. -/
theorem first_match_wins :
    (∀ (env : Env) (fp : String) (pre : List FilterRule) (r : FilterRule)
      (post : List FilterRule),
      r.enabled = true → folderRuleMatched env fp r = true →
      (∀ q ∈ pre, q.enabled = false ∨ folderRuleMatched env fp q = false) →
      checkFolderFilter env fp (pre ++ r :: post) = some (folderDecision r))
    ∧ (∀ (env : Env) (fp : String) (ts : List String) (pre : List FilterRule)
      (r : FilterRule) (post : List FilterRule),
      collectFileTags env fp = .found ts →
      r.enabled = true → tagRuleMatched ts r = true →
      (∀ q ∈ pre, q.enabled = false ∨ tagRuleMatched ts q = false) →
      checkTagFilter env fp (pre ++ r :: post) = some (tagDecision r)) := by
  constructor
  · intro env fp pre r post hen hmat hpre
    induction pre with
    | nil => simp [checkFolderFilter, hen, hmat]
    | cons q qs ih =>
      rcases hpre q (by simp) with hq | hq
      · simpa [checkFolderFilter, hq] using ih (fun p hp => hpre p (by simp [hp]))
      · by_cases he : q.enabled
        · simpa [checkFolderFilter, he, hq] using ih (fun p hp => hpre p (by simp [hp]))
        · simpa [checkFolderFilter, he] using ih (fun p hp => hpre p (by simp [hp]))
  · intro env fp ts pre r post hfound hen hmat hpre
    have : tagLoop ts (pre ++ r :: post) = some (tagDecision r) := by
      induction pre with
      | nil => simp [tagLoop, hen, hmat]
      | cons q qs ih =>
        rcases hpre q (by simp) with hq | hq
        · simpa [tagLoop, hq] using ih (fun p hp => hpre p (by simp [hp]))
        · by_cases he : q.enabled
          · simpa [tagLoop, he, hq] using ih (fun p hp => hpre p (by simp [hp]))
          · simpa [tagLoop, he] using ih (fun p hp => hpre p (by simp [hp]))
    simp [checkTagFilter, hfound, this]

/-- Membership in a group of addRule. -/
theorem mem_addRule {g : ParsedRules} {k j : MatcherKind} {r q : FilterRule}
    (h : q ∈ rulesOf (addRule g k r) j) : q ∈ rulesOf g j ∨ q = r := by
  cases k <;> cases j <;> simp [addRule, rulesOf] at h ⊢ <;> tauto

/-- The grouping invariant of the parseRulesFile loop: enabled-only
groups stay enabled-only. -/
theorem parseLinesLoop_enabled :
    ∀ (ls : List (List Char)) (g : ParsedRules) (es : List RuleEntry) (i : Nat)
      (k : MatcherKind) (r : FilterRule),
      (∀ j q, q ∈ rulesOf g j → q.enabled = true) →
      r ∈ rulesOf (parseLinesLoop g es i ls).1 k → r.enabled = true
  | [], g, es, i, k, r, hinv, hmem => hinv k r hmem
  | l :: ls, g, es, i, k, r, hinv, hmem => by
    rw [parseLinesLoop] at hmem
    by_cases h1 : (trimList l).isEmpty
    · rw [if_pos h1] at hmem
      exact parseLinesLoop_enabled ls g es (i + 1) k r hinv hmem
    · rw [if_neg h1] at hmem
      by_cases h2 : (("#".data).isPrefixOf (trimList l)
          && !(disabledMarker.data.isPrefixOf (trimList l))) = true
      · rw [if_pos h2] at hmem
        exact parseLinesLoop_enabled ls g es (i + 1) k r hinv hmem
      · rw [if_neg h2] at hmem
        cases hp : parseRuleLineCore (trimList l) i with
        | none =>
          rw [hp] at hmem
          exact parseLinesLoop_enabled ls g es (i + 1) k r hinv hmem
        | some entry =>
          rw [hp] at hmem
          simp only at hmem
          by_cases he : entry.rule.enabled
          · rw [if_pos he] at hmem
            refine parseLinesLoop_enabled ls _ _ (i + 1) k r ?_ hmem
            intro j q hq
            rcases mem_addRule hq with hq' | hq'
            · exact hinv j q hq'
            · rw [hq']; exact he
          · rw [if_neg he] at hmem
            exact parseLinesLoop_enabled ls g (es ++ [entry]) (i + 1) k r hinv hmem

/-- The tag loop ignores disabled rules. -/
theorem tagLoop_filter_enabled (ts : List String) :
    ∀ rules : List FilterRule, tagLoop ts rules = tagLoop ts (rules.filter (·.enabled))
  | [] => rfl
  | q :: qs => by
    by_cases he : q.enabled
    · by_cases hq : tagRuleMatched ts q <;>
        simp [tagLoop, List.filter, he, hq, tagLoop_filter_enabled ts qs]
    · simp [tagLoop, List.filter, he, tagLoop_filter_enabled ts qs]

/-- The keyword loop ignores disabled rules. -/
theorem keywordLoop_filter_enabled (env : Env) (content : String) :
    ∀ rules : List FilterRule,
      keywordLoop env content rules = keywordLoop env content (rules.filter (·.enabled))
  | [] => rfl
  | q :: qs => by
    by_cases he : q.enabled
    · by_cases hq : keywordRuleMatched env content q <;>
        simp [keywordLoop, List.filter, he, hq, keywordLoop_filter_enabled env content qs]
    · simp [keywordLoop, List.filter, he, keywordLoop_filter_enabled env content qs]

/-- C7: A rule marked disabled never participates: parsing excludes
disabled rules from every group of the RuleSet the engine consumes,
and each of the four matchers is unchanged by dropping the rules with
enabled = false from its list. -/
theorem disabled_rules_inert :
    (∀ (content : String) (k : MatcherKind) (r : FilterRule),
      r ∈ rulesOf (parseRulesFile content).1 k → r.enabled = true)
    ∧ (∀ (env : Env) (fp : String) (rules : List FilterRule),
      checkFolderFilter env fp rules
        = checkFolderFilter env fp (rules.filter (·.enabled)))
    ∧ (∀ (env : Env) (fp : String) (rules : List FilterRule),
      checkDocumentNameFilter env fp rules
        = checkDocumentNameFilter env fp (rules.filter (·.enabled)))
    ∧ (∀ (env : Env) (fp : String) (rules : List FilterRule),
      checkTagFilter env fp rules
        = checkTagFilter env fp (rules.filter (·.enabled)))
    ∧ (∀ (env : Env) (fp : String) (rules : List FilterRule),
      checkKeywordFilter env fp rules
        = checkKeywordFilter env fp (rules.filter (·.enabled))) := by
  refine ⟨?_, ?_, ?_, ?_, ?_⟩
  · intro content k r hmem
    exact parseLinesLoop_enabled _ _ _ _ k r (by intro j q hq; cases j <;> simp [rulesOf] at hq)
      hmem
  · intro env fp rules
    induction rules with
    | nil => rfl
    | cons q qs ih =>
      by_cases he : q.enabled
      · simp [checkFolderFilter, List.filter, he, ← ih]
      · simp [checkFolderFilter, List.filter, he, ← ih]
  · intro env fp rules
    unfold checkDocumentNameFilter
    induction rules with
    | nil => rfl
    | cons q qs ih =>
      by_cases he : q.enabled
      · simp [checkNameLoop, List.filter, he, ← ih]
      · simp [checkNameLoop, List.filter, he, ← ih]
  · intro env fp rules
    unfold checkTagFilter
    cases h : collectFileTags env fp with
    | fileNotFound => rfl
    | cacheUnavailable => rfl
    | found ts => exact tagLoop_filter_enabled ts rules
  · intro env fp rules
    unfold checkKeywordFilter
    by_cases hf : env.hasFile fp
    · cases hr : env.readFile fp with
      | none => simp
      | some content => simp [keywordLoop_filter_enabled env content rules]
    · simp [hf]

/-- C9: A rule whose regular-expression pattern fails to compile is
treated as non-matching and evaluation continues with the next rule:
removing it from the list leaves the folder, name and keyword matcher
results unchanged, for every candidate and every surrounding rule
list; no error escapes (the matchers are total functions). -/
theorem invalid_regex_skipped (env : Env) (fp : String) (r : FilterRule)
    (pre post : List FilterRule)
    (hre : r.isRegex = true) (hcomp : env.regexCompile r.pattern = none) :
    checkFolderFilter env fp (pre ++ r :: post) = checkFolderFilter env fp (pre ++ post)
    ∧ checkDocumentNameFilter env fp (pre ++ r :: post)
      = checkDocumentNameFilter env fp (pre ++ post)
    ∧ checkKeywordFilter env fp (pre ++ r :: post)
      = checkKeywordFilter env fp (pre ++ post) := by
  have hmat : folderRuleMatched env fp r = false := by
    simp [folderRuleMatched, hre, hcomp]
  have hmatn : ∀ b : String, nameRuleMatched env b r = false := by
    intro b; simp [nameRuleMatched, hre, hcomp]
  have hmatk : ∀ c : String, keywordRuleMatched env c r = false := by
    intro c; simp [keywordRuleMatched, hre, hcomp]
  refine ⟨?_, ?_, ?_⟩
  · induction pre with
    | nil =>
      by_cases he : r.enabled <;> simp [checkFolderFilter, he, hmat]
    | cons q qs ih =>
      by_cases he : q.enabled
      · by_cases hq : folderRuleMatched env fp q <;>
          simp [checkFolderFilter, he, hq, ih]
      · simp [checkFolderFilter, he, ih]
  · unfold checkDocumentNameFilter
    induction pre with
    | nil =>
      by_cases he : r.enabled <;> simp [checkNameLoop, he, hmatn]
    | cons q qs ih =>
      by_cases he : q.enabled
      · by_cases hq : nameRuleMatched env (basenameOf fp) q <;>
          simp [checkNameLoop, he, hq, ih]
      · simp [checkNameLoop, he, ih]
  · by_cases hf : env.hasFile fp
    · cases hr : env.readFile fp with
      | none => simp [checkKeywordFilter, hf, hr]
      | some content =>
        have hred : ∀ rs, checkKeywordFilter env fp rs = keywordLoop env content rs := by
          intro rs; simp [checkKeywordFilter, hf, hr]
        rw [hred, hred]
        induction pre with
        | nil =>
          by_cases he : r.enabled <;> simp [keywordLoop, he, hmatk]
        | cons q qs ih =>
          by_cases he : q.enabled
          · by_cases hq : keywordRuleMatched env content q <;>
              simp [keywordLoop, he, hq, ih]
          · simp [keywordLoop, he, ih]
    · simp [checkKeywordFilter, hf]

/-- C10: The fail-closed deny decisions carry no matched rule, the
engine's method check treats a decision without a matched rule as
applying to all methods, and therefore Evaluate returns the
fail-closed denial for every candidate and every method once its
stage is reached — method scoping can never suppress it (shown at
engine level for the tag-unavailable denial and for the read-error
denial). -/
theorem fail_closed_unscoped :
    tagUnavailableDecision.matchedRule = none
    ∧ readErrorDecision.matchedRule = none
    ∧ (∀ m : String, methodAllowed none m = true)
    ∧ (∀ (env : Env) (fp : String) (settings : FilterSettings) (fr : ParsedRules)
        (m : String),
      collectFileTags env fp = .cacheUnavailable →
      settings.globalAllowTag = "" → settings.globalDenyTag = "" →
      checkFolderFilter env fp fr.folder = none →
      checkDocumentNameFilter env fp fr.name = none →
      fr.tag ≠ [] →
      evaluateFile env fp settings (some m) (some fr) = tagUnavailableDecision)
    ∧ (∀ (env : Env) (fp : String) (settings : FilterSettings) (fr : ParsedRules)
        (m : String),
      env.hasFile fp = true → env.readFile fp = none →
      settings.globalAllowTag = "" → settings.globalDenyTag = "" →
      checkFolderFilter env fp fr.folder = none →
      checkDocumentNameFilter env fp fr.name = none →
      fr.tag = [] → fr.keyword ≠ [] →
      evaluateFile env fp settings (some m) (some fr) = readErrorDecision) := by
  refine ⟨rfl, rfl, fun m => rfl, ?_, ?_⟩
  · intro env fp settings fr m hu ha hd hfold hname htag
    have hglob : checkGlobalTags env fp settings.globalAllowTag settings.globalDenyTag
        = none := by
      rw [ha, hd]; exact checkGlobalTags_no_config env fp
    have htagf : checkTagFilter env fp fr.tag = some tagUnavailableDecision := by
      simp [checkTagFilter, hu]
    have htag' : ¬(rulesOf fr MatcherKind.tag).isEmpty = true := by
      simpa [rulesOf, List.isEmpty_iff] using htag
    unfold evaluateFile
    rw [hglob]
    simp only [stageOrder, evalStages, runMatcher, rulesOf]
    by_cases hf : fr.folder.isEmpty
    · rw [if_pos hf]
      by_cases hn : fr.name.isEmpty
      · rw [if_pos hn]
        rw [if_neg (by simpa [rulesOf] using htag'), htagf]
        simp [noMethod, methodAllowed, tagUnavailableDecision]
      · rw [if_neg hn, hname]
        rw [if_neg (by simpa [rulesOf] using htag'), htagf]
        simp [noMethod, methodAllowed, tagUnavailableDecision]
    · rw [if_neg hf, hfold]
      by_cases hn : fr.name.isEmpty
      · rw [if_pos hn]
        rw [if_neg (by simpa [rulesOf] using htag'), htagf]
        simp [noMethod, methodAllowed, tagUnavailableDecision]
      · rw [if_neg hn, hname]
        rw [if_neg (by simpa [rulesOf] using htag'), htagf]
        simp [noMethod, methodAllowed, tagUnavailableDecision]
  · intro env fp settings fr m hfile hread ha hd hfold hname htag hkw
    have hglob : checkGlobalTags env fp settings.globalAllowTag settings.globalDenyTag
        = none := by
      rw [ha, hd]; exact checkGlobalTags_no_config env fp
    have hkwf : checkKeywordFilter env fp fr.keyword = some readErrorDecision := by
      simp [checkKeywordFilter, hfile, hread]
    have hkw' : ¬(fr.keyword).isEmpty = true := by
      simpa [List.isEmpty_iff] using hkw
    unfold evaluateFile
    rw [hglob]
    simp only [stageOrder, evalStages, runMatcher, rulesOf]
    rw [htag]
    by_cases hf : fr.folder.isEmpty
    · rw [if_pos hf]
      by_cases hn : fr.name.isEmpty
      · rw [if_pos hn]
        simp only [List.isEmpty_nil, if_true]
        rw [if_neg hkw', hkwf]
        simp [noMethod, methodAllowed, readErrorDecision]
      · rw [if_neg hn, hname]
        simp only [List.isEmpty_nil, if_true]
        rw [if_neg hkw', hkwf]
        simp [noMethod, methodAllowed, readErrorDecision]
    · rw [if_neg hf, hfold]
      by_cases hn : fr.name.isEmpty
      · rw [if_pos hn]
        simp only [List.isEmpty_nil, if_true]
        rw [if_neg hkw', hkwf]
        simp [noMethod, methodAllowed, readErrorDecision]
      · rw [if_neg hn, hname]
        simp only [List.isEmpty_nil, if_true]
        rw [if_neg hkw', hkwf]
        simp [noMethod, methodAllowed, readErrorDecision]

/-- The ParsedRules with the rules of one kind removed. -/
def clearKind (fr : ParsedRules) : MatcherKind → ParsedRules
  | .folder => { fr with folder := [] }
  | .name => { fr with name := [] }
  | .tag => { fr with tag := [] }
  | .keyword => { fr with keyword := [] }

theorem rulesOf_clearKind_same (fr : ParsedRules) (k : MatcherKind) :
    rulesOf (clearKind fr k) k = [] := by
  cases k <;> rfl

theorem rulesOf_clearKind_other (fr : ParsedRules) {k j : MatcherKind} (h : j ≠ k) :
    rulesOf (clearKind fr k) j = rulesOf fr j := by
  cases k <;> cases j <;> first | rfl | exact absurd rfl h

/-- The stage chain only reads the rule set through rulesOf at the
listed kinds. -/
theorem evalStages_ext (env : Env) (fp : String) (method : Option String)
    (fr1 fr2 : ParsedRules) :
    ∀ ks : List MatcherKind, (∀ j ∈ ks, rulesOf fr1 j = rulesOf fr2 j) →
      evalStages env fp method fr1 ks = evalStages env fp method fr2 ks
  | [], _ => rfl
  | k :: ks, h => by
    have hk : rulesOf fr1 k = rulesOf fr2 k := h k (by simp)
    have ih := evalStages_ext env fp method fr1 fr2 ks (fun j hj => h j (by simp [hj]))
    simp only [evalStages, hk, ih]

/-- A decision produced by a matcher run on an empty rule list is a
fail-closed decision and carries no matched rule. -/
theorem runMatcher_nil_matchedRule (env : Env) (fp : String) (k : MatcherKind)
    (d : FilterDecision) (h : runMatcher env fp [] k = some d) :
    d.matchedRule = none := by
  cases k with
  | folder => simp [runMatcher, checkFolderFilter] at h
  | name => simp [runMatcher, checkDocumentNameFilter, checkNameLoop] at h
  | tag =>
    simp only [runMatcher, checkTagFilter] at h
    cases hcol : collectFileTags env fp <;> rw [hcol] at h <;> simp [tagLoop] at h
    rw [← h]; rfl
  | keyword =>
    simp only [runMatcher, checkKeywordFilter] at h
    by_cases hf : env.hasFile fp
    · simp only [hf, Bool.not_true, Bool.false_eq_true, if_false] at h
      cases hr : env.readFile fp <;> rw [hr] at h <;> simp [keywordLoop] at h
      rw [← h]; rfl
    · simp [hf] at h

/-- A method-mismatched stage decision makes the chain proceed
exactly as if that stage's rules were absent. -/
theorem evalStages_clear_mid (env : Env) (fp : String) (m : String)
    (fr : ParsedRules) (k : MatcherKind) (d : FilterDecision)
    (hm : m ≠ "")
    (hrun : runMatcher env fp (rulesOf fr k) k = some d)
    (hgate : methodAllowed d.matchedRule m = false) :
    ∀ (A B : List MatcherKind), k ∉ A → k ∉ B →
      evalStages env fp (some m) fr (A ++ k :: B)
        = evalStages env fp (some m) (clearKind fr k) (A ++ k :: B)
  | [], B, _, hB => by
    have hne : ¬(rulesOf fr k).isEmpty = true := by
      intro hemp
      rw [List.isEmpty_iff] at hemp
      rw [hemp] at hrun
      have hnone := runMatcher_nil_matchedRule env fp k d hrun
      rw [hnone] at hgate
      simp [methodAllowed] at hgate
    have hnm : ¬(noMethod (some m) || methodAllowed d.matchedRule ((some m).getD "")) = true := by
      simp [noMethod, hgate, hm]
    have hext := evalStages_ext env fp (some m) fr (clearKind fr k) B
      (fun j hj =>
        (rulesOf_clearKind_other fr (fun he => hB (by rw [← he]; exact hj))).symm)
    simp only [List.nil_append]
    rw [evalStages, evalStages, if_neg hne, hrun]
    dsimp only
    rw [if_neg hnm, if_pos (by rw [rulesOf_clearKind_same]; rfl)]
    exact hext
  | a :: A, B, hA, hB => by
    have hak : a ≠ k := fun he => hA (by simp [he])
    have ih := evalStages_clear_mid env fp m fr k d hm hrun hgate A B
      (fun hmem => hA (by simp [hmem])) hB
    have hro : rulesOf (clearKind fr k) a = rulesOf fr a :=
      rulesOf_clearKind_other fr hak
    simp only [List.cons_append]
    rw [evalStages, evalStages, hro]
    by_cases hae : (rulesOf fr a).isEmpty = true
    · rw [if_pos hae, if_pos hae]; exact ih
    · rw [if_neg hae, if_neg hae]
      cases hra : runMatcher env fp (rulesOf fr a) a with
      | none => exact ih
      | some d' =>
        dsimp only
        by_cases hg : (noMethod (some m)
            || methodAllowed d'.matchedRule ((some m).getD "")) = true
        · rw [if_pos hg, if_pos hg]
        · rw [if_neg hg, if_neg hg]; exact ih

/-- C3: When a folder, name, tag or keyword stage matches the
candidate but the matched rule's method scope excludes the
candidate's method, the match is ignored and evaluation proceeds
exactly as if that stage's rules were absent: the chain continues
with the next matcher kinds and reaches the default policy only when
none of them applies, never returning the method-mismatched
verdict. -/
theorem method_mismatch_falls_through (env : Env) (fp : String)
    (settings : FilterSettings) (m : String) (fr : ParsedRules)
    (k : MatcherKind) (d : FilterDecision)
    (hm : m ≠ "") (hrun : runMatcher env fp (rulesOf fr k) k = some d)
    (hgate : methodAllowed d.matchedRule m = false) :
    evaluateFile env fp settings (some m) (some fr)
      = evaluateFile env fp settings (some m) (some (clearKind fr k)) := by
  unfold evaluateFile
  cases hglob : checkGlobalTags env fp settings.globalAllowTag settings.globalDenyTag with
  | some d' => rfl
  | none =>
    simp only
    have hmid : evalStages env fp (some m) fr stageOrder
        = evalStages env fp (some m) (clearKind fr k) stageOrder := by
      cases k with
      | folder =>
        exact evalStages_clear_mid env fp m fr _ d hm hrun hgate []
          [MatcherKind.name, MatcherKind.tag, MatcherKind.keyword] (by simp) (by simp)
      | name =>
        exact evalStages_clear_mid env fp m fr _ d hm hrun hgate [MatcherKind.folder]
          [MatcherKind.tag, MatcherKind.keyword] (by simp) (by simp)
      | tag =>
        exact evalStages_clear_mid env fp m fr _ d hm hrun hgate
          [MatcherKind.folder, MatcherKind.name] [MatcherKind.keyword] (by simp) (by simp)
      | keyword =>
        exact evalStages_clear_mid env fp m fr _ d hm hrun hgate
          [MatcherKind.folder, MatcherKind.name, MatcherKind.tag] [] (by simp) (by simp)
    rw [hmid]

/-- The JavaScript regular expressions exercised by the repository's
own filter tests, as test functions.  new RegExp("^private/")
accepts exactly the strings starting with "private/" and new
RegExp("password") accepts exactly the strings containing
"password"; both are case-sensitive because the sources construct
the RegExp without passing any flags argument. -/
def jsRegexSample (p : String) : Option (String → Bool) :=
  if p = "^private/" then some (fun s => ("private/".data).isPrefixOf s.data)
  else if p = "password" then some (fun s => hasSub "password".data s.data)
  else none

/-- The environment of the repository's folder-filter and
keyword-filter regex-flag tests: every path exists and
vault.cachedRead yields the content used by the keyword test. -/
def envRegexTests : Env :=
  { hasFile := fun _ => true
    fileCache := fun _ => some ⟨[], none⟩
    readFile := fun _ => some "This has Password uppercase"
    glob := fun _ _ => false
    regexCompile := jsRegexSample }

/-- The deny folder rule of folder-filter.test.ts with pattern
^private/ and regexFlags i. -/
def caseFolderRule : FilterRule :=
  { id := "test-rule", mode := .deny, pattern := "^private/", isRegex := true
    enabled := true, description := "test", methods := none, regexFlags := some "i" }

/-- The deny keyword rule of keyword-filter.test.ts with pattern
password and regexFlags i. -/
def caseKeywordRule : FilterRule :=
  { id := "test-rule", mode := .deny, pattern := "password", isRegex := true
    enabled := true, description := "test", methods := none, regexFlags := some "i" }

/-- C5 (the code contradicts its own tests): the matchers build the
regular expression from the pattern alone and never pass regexFlags,
so a rule carrying the i flag still matches case-sensitively.  On the
inputs of the repository's own test suite: the folder rule with
pattern ^private/ and flags i does not match "Private/secret.md"
(folder-filter.test.ts expects a deny) while it does match
"private/secret.md"; and the keyword rule with pattern password and
flags i does not match the content "This has Password uppercase"
(keyword-filter.test.ts expects a deny). -/
theorem regexFlags_never_applied :
    checkFolderFilter envRegexTests "Private/secret.md" [caseFolderRule] = none
    ∧ checkFolderFilter envRegexTests "private/secret.md" [caseFolderRule]
        = some (folderDecision caseFolderRule)
    ∧ checkKeywordFilter envRegexTests "some/file.md" [caseKeywordRule] = none := by
  refine ⟨?_, ?_, ?_⟩ <;> rfl

/-! ## List-level facts used by the round-trip proof -/

theorem takeWhile_append_of_all {p : Char → Bool} {a : List Char} (b : List Char)
    (h : ∀ c ∈ a, p c = true) : (a ++ b).takeWhile p = a ++ b.takeWhile p := by
  induction a with
  | nil => rfl
  | cons c cs ih =>
    simp only [List.cons_append, List.takeWhile_cons, h c (by simp), if_true]
    rw [ih (fun x hx => h x (by simp [hx]))]

theorem dropWhile_append_of_all {p : Char → Bool} {a : List Char} (b : List Char)
    (h : ∀ c ∈ a, p c = true) : (a ++ b).dropWhile p = b.dropWhile p := by
  induction a with
  | nil => rfl
  | cons c cs ih =>
    simp only [List.cons_append, List.dropWhile_cons, h c (by simp), if_true]
    exact ih (fun x hx => h x (by simp [hx]))

theorem dropWhile_eq_self_of_head {p : Char → Bool} {l : List Char}
    (h : ∀ c, l.head? = some c → p c = false) : l.dropWhile p = l := by
  cases l with
  | nil => rfl
  | cons c cs => simp [List.dropWhile_cons, h c rfl]

theorem trimList_eq_self {l : List Char}
    (h1 : ∀ c, l.head? = some c → isWsChar c = false)
    (h2 : ∀ c, l.getLast? = some c → isWsChar c = false) : trimList l = l := by
  unfold trimList
  rw [dropWhile_eq_self_of_head h1]
  rw [dropWhile_eq_self_of_head (fun c hc => h2 c (by rwa [List.head?_reverse] at hc))]
  exact List.reverse_reverse l

theorem head?_nonws_of_all {l : List Char} (h : ∀ c ∈ l, isWsChar c = false) :
    ∀ c, l.head? = some c → isWsChar c = false :=
  fun c hc => h c (List.mem_of_mem_head? hc)

theorem getLast?_nonws_of_all {l : List Char} (h : ∀ c ∈ l, isWsChar c = false) :
    ∀ c, l.getLast? = some c → isWsChar c = false := by
  intro c hc
  rw [← List.head?_reverse] at hc
  have : c ∈ l.reverse := List.mem_of_mem_head? (by rw [hc]; simp)
  exact h c (List.mem_reverse.1 this)

theorem trimList_eq_self_of_all {l : List Char} (h : ∀ c ∈ l, isWsChar c = false) :
    trimList l = l :=
  trimList_eq_self (head?_nonws_of_all h) (getLast?_nonws_of_all h)

theorem splitWsGo_all_nonws {l : List Char} (h : ∀ c ∈ l, isWsChar c = false) :
    ∀ acc, splitWsGo l acc = [acc.reverse ++ l] := by
  induction l with
  | nil => intro acc; simp [splitWsGo]
  | cons c cs ih =>
    intro acc
    rw [splitWsGo, if_neg (by rw [h c (by simp)]; exact Bool.false_ne_true)]
    rw [ih (fun x hx => h x (by simp [hx])) (c :: acc)]
    simp

theorem splitWs_single {l : List Char} (h : ∀ c ∈ l, isWsChar c = false) :
    splitWs l = [l] := by
  rw [splitWs, splitWsGo_all_nonws h]; rfl

theorem splitWs_two {raw mj : List Char}
    (h1 : ∀ c ∈ raw, isWsChar c = false) (h2 : ∀ c ∈ mj, isWsChar c = false)
    (hmj : mj ≠ []) : splitWs (raw ++ ' ' :: ' ' :: mj) = [raw, mj] := by
  have hskip : splitWsGo.splitWsSkip mj = [mj] := by
    cases mj with
    | nil => exact absurd rfl hmj
    | cons m0 ms =>
      rw [splitWsGo.splitWsSkip, if_neg (by rw [h2 m0 (by simp)]; exact Bool.false_ne_true)]
      rw [splitWsGo_all_nonws (fun x hx => h2 x (by simp [hx])) [m0]]
      rfl
  have hgo : ∀ acc, splitWsGo (raw ++ ' ' :: ' ' :: mj) acc = [acc.reverse ++ raw, mj] := by
    induction raw with
    | nil =>
      intro acc
      rw [List.nil_append, splitWsGo, if_pos (show isWsChar ' ' = true from rfl)]
      rw [splitWsGo.splitWsSkip, if_pos (show isWsChar ' ' = true from rfl), hskip]
      simp
    | cons c cs ih =>
      intro acc
      rw [List.cons_append, splitWsGo,
        if_neg (by rw [h1 c (by simp)]; exact Bool.false_ne_true)]
      rw [ih (fun x hx => h1 x (by simp [hx])) (c :: acc)]
      simp
  rw [splitWs, hgo []]
  rfl

theorem idxOfChar_append {c : Char} {a b : List Char} (h : ∀ x ∈ a, x ≠ c) :
    idxOfChar c (a ++ c :: b) = some a.length := by
  induction a with
  | nil => simp [idxOfChar]
  | cons x xs ih =>
    rw [List.cons_append, idxOfChar, if_neg (h x (by simp))]
    rw [ih (fun y hy => h y (by simp [hy]))]
    rfl

theorem drop_append_cons {a b : List Char} {x : Char} :
    (a ++ x :: b).drop (a.length + 1) = b := by
  rw [← List.drop_drop 1 a.length, List.drop_left]
  rfl

theorem isPrefixOf_append_self : ∀ (a b : List Char), a.isPrefixOf (a ++ b) = true
  | [], _ => by rw [List.isPrefixOf]
  | c :: cs, b => by
    rw [List.cons_append, List.isPrefixOf]
    simp [isPrefixOf_append_self cs b]

theorem isPrefixOf_cons_ne {c x : Char} {t xs : List Char} (h : c ≠ x) :
    (c :: t).isPrefixOf (x :: xs) = false := by
  rw [List.isPrefixOf]
  simp [h]

theorem extractFlags_suffix {p f : List Char} (hne : f ≠ [])
    (hall : ∀ c ∈ f, isFlagChar c = true) : extractFlags (p ++ '/' :: f) = (p, f) := by
  unfold extractFlags
  have hrev : (p ++ '/' :: f).reverse = f.reverse ++ '/' :: p.reverse := by
    rw [List.reverse_append, List.reverse_cons]
    simp
  rw [hrev]
  have htw : (f.reverse ++ '/' :: p.reverse).takeWhile isFlagChar = f.reverse := by
    rw [takeWhile_append_of_all _ (fun c hc => hall c (List.mem_reverse.1 hc))]
    rw [List.takeWhile_cons, if_neg (by decide)]
    simp
  rw [htw]
  have hdrop : (f.reverse ++ '/' :: p.reverse).drop f.reverse.length = '/' :: p.reverse :=
    List.drop_left _ _
  rw [hdrop]
  rw [if_neg (by simp [List.isEmpty_iff, hne])]
  rw [if_pos (show ('/' :: p.reverse).head? = some '/' from rfl)]
  simp

theorem extractFlags_no_suffix {p : List Char} (h : (extractFlags p).2 = []) :
    extractFlags p = (p, []) := by
  unfold extractFlags at h ⊢
  by_cases hrun : (p.reverse.takeWhile isFlagChar).isEmpty = true
  · rw [if_pos hrun]
  · rw [if_neg hrun] at h ⊢
    by_cases hsl : (p.reverse.drop (p.reverse.takeWhile isFlagChar).length).head? = some '/'
    · rw [if_pos hsl] at h
      simp only at h
      have hempty : p.reverse.takeWhile isFlagChar = [] := by
        simpa using congrArg List.reverse h
      exact absurd (by simp [List.isEmpty_iff, hempty]) hrun
    · rw [if_neg hsl]

theorem spm_unquoted_none {raw : List Char} (hq : raw.head? ≠ some '"')
    (hnws : ∀ c ∈ raw, isWsChar c = false) :
    splitPatternMethods raw = some (raw, none) := by
  rw [splitPatternMethods, if_neg hq, splitWs_single hnws]
  rfl

theorem spm_unquoted_methods {raw mj : List Char} (hq : raw.head? ≠ some '"')
    (hne : raw ≠ []) (h1 : ∀ c ∈ raw, isWsChar c = false)
    (h2 : ∀ c ∈ mj, isWsChar c = false) (hmj : mj ≠ []) :
    splitPatternMethods (raw ++ ' ' :: ' ' :: mj) = some (raw, some mj) := by
  have hq' : (raw ++ ' ' :: ' ' :: mj).head? ≠ some '"' := by
    cases raw with
    | nil => exact absurd rfl hne
    | cons c cs => simpa using hq
  rw [splitPatternMethods, if_neg hq', splitWs_two h1 h2 hmj]
  rfl

theorem spm_quoted {raw mpart : List Char} (hq : ∀ x ∈ raw, x ≠ '"') :
    splitPatternMethods ('"' :: (raw ++ '"' :: mpart))
      = some (raw,
          if (trimList mpart).isEmpty then none else some (trimList mpart)) := by
  rw [splitPatternMethods,
    if_pos (show ('"' :: (raw ++ '"' :: mpart)).head? = some '"' from rfl)]
  simp only [List.tail_cons]
  rw [idxOfChar_append hq]
  dsimp only
  rw [List.take_left, drop_append_cons]

theorem parseModeTok_roundtrip (mo : FilterMode) :
    parseModeTok (modeToString mo).data = some mo := by
  cases mo <;> rfl

theorem parseKindTok_roundtrip (k : MatcherKind) :
    parseKindTok (kindToString k).data = some k := by
  cases k <;> rfl

theorem parseMethodTok_roundtrip (m : HttpMethod) :
    parseMethodTok (methodToString m).data = some m := by
  cases m <;> rfl

theorem splitCharGo_no_sep {sep : Char} {l : List Char} (h : ∀ x ∈ l, x ≠ sep) :
    ∀ acc, splitCharGo sep l acc = [acc.reverse ++ l] := by
  induction l with
  | nil => intro acc; simp [splitCharGo]
  | cons c cs ih =>
    intro acc
    rw [splitCharGo, if_neg (h c (by simp))]
    rw [ih (fun x hx => h x (by simp [hx])) (c :: acc)]
    simp

theorem splitCharGo_append {sep : Char} {a : List Char} (h : ∀ x ∈ a, x ≠ sep)
    (b : List Char) :
    ∀ acc, splitCharGo sep (a ++ sep :: b) acc
      = (acc.reverse ++ a) :: splitCharGo sep b [] := by
  induction a with
  | nil => intro acc; rw [List.nil_append, splitCharGo, if_pos rfl]; simp
  | cons c cs ih =>
    intro acc
    rw [List.cons_append, splitCharGo, if_neg (h c (by simp))]
    rw [ih (fun x hx => h x (by simp [hx])) (c :: acc)]
    simp

theorem splitChar_joinComma :
    ∀ ls : List String, ls ≠ [] → (∀ s ∈ ls, ∀ c ∈ s.data, c ≠ ',') →
      splitChar ',' (joinComma ls).data = ls.map String.data
  | [], h, _ => absurd rfl h
  | [s], _, hc => by
    rw [joinComma, splitChar, splitCharGo_no_sep (hc s (by simp)) []]
    rfl
  | s :: s2 :: ss, _, hc => by
    have hjc : joinComma (s :: s2 :: ss) = s ++ "," ++ joinComma (s2 :: ss) := rfl
    rw [hjc]
    have hdata : (s ++ "," ++ joinComma (s2 :: ss)).data
        = s.data ++ ',' :: (joinComma (s2 :: ss)).data := by
      rw [String.data_append, String.data_append]
      simp
    rw [hdata, splitChar, splitCharGo_append (hc s (by simp)) _ []]
    have ih := splitChar_joinComma (s2 :: ss) (List.cons_ne_nil _ _)
      (fun t ht => hc t (by simp [ht]))
    rw [splitChar] at ih
    rw [ih]
    rfl

theorem filterMap_parseMethodTok (ms : List HttpMethod) :
    ((ms.map methodToString).map String.data).filterMap parseMethodTok = ms := by
  induction ms with
  | nil => rfl
  | cons m rest ih =>
    simp only [List.map_cons, List.filterMap_cons, parseMethodTok_roundtrip m]
    rw [ih]

theorem methodToString_no_comma (m : HttpMethod) :
    ∀ c ∈ (methodToString m).data, c ≠ ',' := by
  cases m <;> decide

theorem methodToString_no_ws (m : HttpMethod) :
    ∀ c ∈ (methodToString m).data, isWsChar c = false := by
  cases m <;> decide

theorem parseMethodsStr_roundtrip (ms : List HttpMethod) (h : ms ≠ []) :
    parseMethodsStr (joinComma (ms.map methodToString)).data = some ms := by
  rw [parseMethodsStr]
  rw [splitChar_joinComma (ms.map methodToString)
    (by simpa using h)
    (fun s hs => by
      rcases List.mem_map.1 hs with ⟨m, _, rfl⟩
      exact methodToString_no_comma m)]
  rw [filterMap_parseMethodTok]
  rw [if_neg (by simpa [List.isEmpty_iff] using h)]

/-- The characters of the comma-join of method names: no whitespace. -/
theorem joinComma_methods_no_ws (ms : List HttpMethod) :
    ∀ c ∈ (joinComma (ms.map methodToString)).data, isWsChar c = false := by
  induction ms with
  | nil => intro c hc; simp [joinComma] at hc
  | cons m rest ih =>
    cases rest with
    | nil =>
      intro c hc
      simp only [List.map_cons, List.map_nil, joinComma] at hc
      exact methodToString_no_ws m c hc
    | cons m2 rest2 =>
      intro c hc
      simp only [List.map_cons, joinComma] at hc ih
      rw [String.data_append, String.data_append] at hc
      rcases List.mem_append.1 hc with hc1 | hc2
      · rcases List.mem_append.1 hc1 with hc3 | hc4
        · exact methodToString_no_ws m c hc3
        · simp only [List.mem_singleton] at hc4
          subst hc4
          rfl
      · exact ih c hc2

theorem joinComma_methods_ne_nil (ms : List HttpMethod) (h : ms ≠ []) :
    (joinComma (ms.map methodToString)).data ≠ [] := by
  cases ms with
  | nil => exact absurd rfl h
  | cons m rest =>
    cases rest with
    | nil => cases m <;> decide
    | cons m2 rest2 =>
      simp only [List.map_cons, joinComma, String.data_append]
      intro hcontra
      have := congrArg List.length hcontra
      simp at this

theorem getLast?_append_right {a b : List Char} (h : b ≠ []) :
    (a ++ b).getLast? = b.getLast? := by
  rw [← List.head?_reverse, ← List.head?_reverse, List.reverse_append]
  cases hb : b.reverse with
  | nil => exact absurd (by simpa using congrArg List.reverse hb) h
  | cons x xs => rfl

/-- The token phase of the parser on content of the serialized shape:
two non-whitespace tokens, two-space separators, then the
remainder. -/
theorem parseRuleContent_tokens (e : Bool) (i : Nat) (t1 t2 rem : List Char)
    (h1 : ∀ c ∈ t1, isWsChar c = false) (h1ne : t1 ≠ [])
    (h2 : ∀ c ∈ t2, isWsChar c = false) (h2ne : t2 ≠ [])
    (hrh : ∀ c, rem.head? = some c → isWsChar c = false) (hrne : rem ≠ []) :
    parseRuleContent e i (t1 ++ ' ' :: ' ' :: (t2 ++ ' ' :: ' ' :: rem))
      = parseRuleRest e i t1 t2 rem := by
  have h1' : ∀ c ∈ t1, (fun c => !isWsChar c) c = true := by
    intro c hc; simp [h1 c hc]
  have h2' : ∀ c ∈ t2, (fun c => !isWsChar c) c = true := by
    intro c hc; simp [h2 c hc]
  have hmode : (t1 ++ ' ' :: ' ' :: (t2 ++ ' ' :: ' ' :: rem)).takeWhile
      (fun c => !isWsChar c) = t1 := by
    rw [takeWhile_append_of_all _ h1', List.takeWhile_cons]
    simp [show isWsChar ' ' = true from rfl]
  have hr1 : (t1 ++ ' ' :: ' ' :: (t2 ++ ' ' :: ' ' :: rem)).dropWhile
      (fun c => !isWsChar c) = ' ' :: ' ' :: (t2 ++ ' ' :: ' ' :: rem) := by
    rw [dropWhile_append_of_all _ h1', List.dropWhile_cons]
    simp [show isWsChar ' ' = true from rfl]
  have ht2head : ∀ c, (t2 ++ ' ' :: ' ' :: rem).head? = some c → isWsChar c = false := by
    intro c hc
    cases t2 with
    | nil => exact absurd rfl h2ne
    | cons x xs =>
      simp only [List.cons_append, List.head?_cons, Option.some.injEq] at hc
      rw [← hc]
      exact h2 x (by simp)
  have hw1 : ((' ' :: ' ' :: (t2 ++ ' ' :: ' ' :: rem)).takeWhile isWsChar).isEmpty
      = false := by
    rw [List.takeWhile_cons, if_pos (show isWsChar ' ' = true from rfl)]
    rfl
  have hr2 : (' ' :: ' ' :: (t2 ++ ' ' :: ' ' :: rem)).dropWhile isWsChar
      = t2 ++ ' ' :: ' ' :: rem := by
    rw [List.dropWhile_cons, if_pos (show isWsChar ' ' = true from rfl),
      List.dropWhile_cons, if_pos (show isWsChar ' ' = true from rfl)]
    exact dropWhile_eq_self_of_head ht2head
  have htype : (t2 ++ ' ' :: ' ' :: rem).takeWhile (fun c => !isWsChar c) = t2 := by
    rw [takeWhile_append_of_all _ h2', List.takeWhile_cons]
    simp [show isWsChar ' ' = true from rfl]
  have hr3 : (t2 ++ ' ' :: ' ' :: rem).dropWhile (fun c => !isWsChar c)
      = ' ' :: ' ' :: rem := by
    rw [dropWhile_append_of_all _ h2', List.dropWhile_cons]
    simp [show isWsChar ' ' = true from rfl]
  have hw2 : ((' ' :: ' ' :: rem).takeWhile isWsChar).isEmpty = false := by
    rw [List.takeWhile_cons, if_pos (show isWsChar ' ' = true from rfl)]
    rfl
  have hrem : (' ' :: ' ' :: rem).dropWhile isWsChar = rem := by
    rw [List.dropWhile_cons, if_pos (show isWsChar ' ' = true from rfl),
      List.dropWhile_cons, if_pos (show isWsChar ' ' = true from rfl)]
    exact dropWhile_eq_self_of_head hrh
  unfold parseRuleContent
  simp only [hmode, hr1, hw1, hr2, htype, hr3, hw2, hrem]
  rw [if_neg (by simp [List.isEmpty_iff, h1ne, h2ne])]

/-- A pattern character the rule-file grammar can carry: not a
double quote, and no whitespace other than a plain space (a space is
representable through quoting). -/
def charOkPattern (c : Char) : Bool :=
  (c != '"') && (!isWsChar c || c = ' ')

/-- A Rule expressible in the rule-file grammar of the spec: the
pattern is non-empty and made of representable characters; a literal
pattern does not begin with the tilde that marks regular expressions
and carries no flags; a regex pattern without flags does not end in a
slash-flags suffix (such a rule is written with the flags instead),
and flags, when present, are a non-empty word of the known flag
letters; a methods list, when present, is non-empty (an empty list is
the same as an absent one). -/
def validRuleB (r : FilterRule) : Bool :=
  (!r.pattern.data.isEmpty) &&
  r.pattern.data.all charOkPattern &&
  (if r.isRegex then
    (match r.regexFlags with
     | none => (extractFlags r.pattern.data).2.isEmpty
     | some f => (!f.data.isEmpty) && f.data.all isFlagChar)
   else
    (r.pattern.data.head? != some '~') && r.regexFlags.isNone) &&
  (match r.methods with
   | none => true
   | some ms => !ms.isEmpty)

theorem trimList_sep {l : List Char} (h : ∀ c ∈ l, isWsChar c = false) :
    trimList (' ' :: ' ' :: l) = l := by
  unfold trimList
  rw [List.dropWhile_cons, if_pos (show isWsChar ' ' = true from rfl),
    List.dropWhile_cons, if_pos (show isWsChar ' ' = true from rfl)]
  rw [dropWhile_eq_self_of_head (head?_nonws_of_all h)]
  rw [dropWhile_eq_self_of_head (fun c hc => by
    rw [List.head?_reverse] at hc
    exact getLast?_nonws_of_all h c hc)]
  exact List.reverse_reverse l

/-- Evaluation of the parser tail on a serialized mode and kind token
once the pattern/methods split is known. -/
theorem parseRuleRest_eval (mo : FilterMode) (kk : MatcherKind) (e : Bool) (i : Nat)
    (rem rawP : List Char) (msTok : Option (List Char))
    (hsplit : splitPatternMethods (trimList rem) = some (rawP, msTok))
    (hne : rawP ≠ []) :
    parseRuleRest e i (modeToString mo).data (kindToString kk).data rem
      = some
        { rule :=
            { id := "rule-line-" ++ Nat.repr (i + 1)
              mode := mo
              pattern := ⟨(if rawP.head? = some '~' then
                extractFlags (rawP.drop 1) else (rawP, [])).1⟩
              isRegex := rawP.head? = some '~'
              enabled := e
              description := "line " ++ Nat.repr (i + 1)
              methods := match msTok with
                | none => none
                | some s => if s.isEmpty then none else parseMethodsStr s
              regexFlags := if (if rawP.head? = some '~' then
                  extractFlags (rawP.drop 1) else (rawP, [])).2.isEmpty then none
                else some ⟨(if rawP.head? = some '~' then
                  extractFlags (rawP.drop 1) else (rawP, [])).2⟩ }
          filterType := kk
          lineNumber := i } := by
  unfold parseRuleRest
  simp only [hsplit]
  rw [if_neg (by simp [List.isEmpty_iff, hne])]
  simp only [parseModeTok_roundtrip, parseKindTok_roundtrip]
  cases msTok <;> rfl

theorem head?_append_left {a b : List Char} (h : a ≠ []) :
    (a ++ b).head? = a.head? := by
  cases a with
  | nil => exact absurd rfl h
  | cons x xs => rfl

theorem getLast?_body (t1 t2 rem : List Char) (hr : rem ≠ []) :
    (t1 ++ ' ' :: ' ' :: (t2 ++ ' ' :: ' ' :: rem)).getLast? = rem.getLast? := by
  rw [getLast?_append_right (by simp)]
  rw [show (' ' :: ' ' :: (t2 ++ ' ' :: ' ' :: rem) : List Char)
    = [' ', ' '] ++ (t2 ++ ' ' :: ' ' :: rem) from rfl]
  rw [getLast?_append_right (by simp)]
  rw [getLast?_append_right (by simp)]
  rw [show (' ' :: ' ' :: rem : List Char) = [' ', ' '] ++ rem from rfl]
  rw [getLast?_append_right hr]

/-- The last phase of the round trip: with the serialized line in
token shape, the pattern/methods split known, and the pattern, flag,
regex and methods reconstructions given, parsing reproduces the
rule. -/
theorem roundtrip_finish (k : MatcherKind) (r : FilterRule) (i : Nat)
    (rawP rem : List Char) (msTok : Option (List Char))
    (hline : (serializeRule (kindToString k) r).data
        = (if r.enabled then [] else disabledMarker.data)
          ++ ((modeToString r.mode).data ++ ' ' :: ' ' ::
            ((kindToString k).data ++ ' ' :: ' ' :: rem)))
    (hsplit : splitPatternMethods (trimList rem) = some (rawP, msTok))
    (hrem_head : ∀ c, rem.head? = some c → isWsChar c = false)
    (hrem_last : ∀ c, rem.getLast? = some c → isWsChar c = false)
    (hrem_ne : rem ≠ [])
    (hne : rawP ≠ [])
    (hpat : (if rawP.head? = some '~' then extractFlags (rawP.drop 1)
        else (rawP, [])).1 = r.pattern.data)
    (hflag : (if (if rawP.head? = some '~' then extractFlags (rawP.drop 1)
        else (rawP, [])).2.isEmpty = true then none
        else some (⟨(if rawP.head? = some '~' then extractFlags (rawP.drop 1)
        else (rawP, [])).2⟩ : String)) = r.regexFlags)
    (hisr : decide (rawP.head? = some '~') = r.isRegex)
    (hmethvals : (match msTok with
        | none => none
        | some s => if s.isEmpty then none else parseMethodsStr s) = r.methods) :
    ∃ e, parseRuleLine (serializeRule (kindToString k) r) i = some e
      ∧ e.filterType = k ∧ e.rule.mode = r.mode ∧ e.rule.pattern = r.pattern
      ∧ e.rule.isRegex = r.isRegex ∧ e.rule.regexFlags = r.regexFlags
      ∧ e.rule.methods = r.methods ∧ e.rule.enabled = r.enabled := by
  have hmode_nws : ∀ c ∈ (modeToString r.mode).data, isWsChar c = false := by
    cases r.mode <;> decide
  have hmode_ne : (modeToString r.mode).data ≠ [] := by
    cases r.mode <;> decide
  have hkind_nws : ∀ c ∈ (kindToString k).data, isWsChar c = false := by
    cases k <;> decide
  have hkind_ne : (kindToString k).data ≠ [] := by
    cases k <;> decide
  have hnomark : ∀ X : List Char,
      disabledMarker.data.isPrefixOf ((modeToString r.mode).data ++ X) = false := by
    cases r.mode <;> intro X <;> rfl
  have hparse : parseRuleLine (serializeRule (kindToString k) r) i
      = parseRuleRest r.enabled i (modeToString r.mode).data (kindToString k).data rem := by
    unfold parseRuleLine
    rw [hline]
    by_cases hen : r.enabled
    · rw [if_pos hen, List.nil_append]
      unfold parseRuleLineCore
      rw [if_neg (by rw [hnomark]; simp)]
      rw [parseRuleContent_tokens true i _ _ _ hmode_nws hmode_ne hkind_nws hkind_ne
        hrem_head hrem_ne]
      rw [hen]
    · rw [if_neg hen]
      unfold parseRuleLineCore
      rw [if_pos (isPrefixOf_append_self _ _)]
      rw [List.drop_left]
      have hbody_head : ∀ c, ((modeToString r.mode).data ++ ' ' :: ' ' ::
          ((kindToString k).data ++ ' ' :: ' ' :: rem)).head? = some c →
          isWsChar c = false := by
        intro c hc
        rw [head?_append_left hmode_ne] at hc
        exact head?_nonws_of_all hmode_nws c hc
      have hbody_last : ∀ c, ((modeToString r.mode).data ++ ' ' :: ' ' ::
          ((kindToString k).data ++ ' ' :: ' ' :: rem)).getLast? = some c →
          isWsChar c = false := by
        intro c hc
        rw [getLast?_body _ _ _ hrem_ne] at hc
        exact hrem_last c hc
      rw [trimList_eq_self hbody_head hbody_last]
      rw [parseRuleContent_tokens false i _ _ _ hmode_nws hmode_ne hkind_nws hkind_ne
        hrem_head hrem_ne]
      rw [show r.enabled = false by simpa using hen]
  rw [hparse, parseRuleRest_eval r.mode k r.enabled i rem rawP msTok hsplit hne]
  refine ⟨_, rfl, rfl, rfl, ?_, ?_, ?_, ?_, rfl⟩
  · show (⟨(if rawP.head? = some '~' then extractFlags (rawP.drop 1)
      else (rawP, [])).1⟩ : String) = r.pattern
    rw [hpat]
  · exact hisr
  · exact hflag
  · cases msTok <;> exact hmethvals

/-- Assembly of the round trip over the quoting and methods cases:
once the serialized raw pattern (tilde and flag suffix re-added) is
known to reproduce the rule's pattern, flags and regex marker under
the parser's pattern phase, parsing the serialized line reproduces
the rule. -/
theorem roundtrip_assemble (k : MatcherKind) (r : FilterRule) (i : Nat)
    (rawP : List Char)
    (hne : rawP ≠ [])
    (hq : ∀ c ∈ rawP, c ≠ '"')
    (hws : ∀ c ∈ rawP, isWsChar c = true → c = ' ')
    (hraw : (if r.isRegex then "~" ++ r.pattern ++
        (match r.regexFlags with
         | some f => if r.isRegex && f != "" then "/" ++ f else ""
         | none => "") else r.pattern).data = rawP)
    (hpat : (if rawP.head? = some '~' then extractFlags (rawP.drop 1)
        else (rawP, [])).1 = r.pattern.data)
    (hflag : (if (if rawP.head? = some '~' then extractFlags (rawP.drop 1)
        else (rawP, [])).2.isEmpty = true then none
        else some (⟨(if rawP.head? = some '~' then extractFlags (rawP.drop 1)
        else (rawP, [])).2⟩ : String)) = r.regexFlags)
    (hisr : decide (rawP.head? = some '~') = r.isRegex)
    (hm : ∀ ms, r.methods = some ms → ms ≠ []) :
    ∃ e, parseRuleLine (serializeRule (kindToString k) r) i = some e
      ∧ e.filterType = k ∧ e.rule.mode = r.mode ∧ e.rule.pattern = r.pattern
      ∧ e.rule.isRegex = r.isRegex ∧ e.rule.regexFlags = r.regexFlags
      ∧ e.rule.methods = r.methods ∧ e.rule.enabled = r.enabled := by
  by_cases hsp : rawP.contains ' '
  · -- The raw pattern carries a space and is serialized quoted.
    rcases hmeth : r.methods with _ | ms
    · rw [← hmeth]
      refine roundtrip_finish k r i rawP ('"' :: (rawP ++ '"' :: [])) none
        ?_ ?_ ?_ ?_ (by simp) hne hpat hflag hisr (by rw [hmeth])
      · by_cases hen : r.enabled <;>
          (simp only [serializeRule]
           rw [hraw, if_pos hsp, hmeth]
           dsimp only
           simp only [String.data_append]
           rw [hraw]
           simp [hen, disabledMarker, List.append_assoc,
            show ("~" : String).data = ['~'] from rfl,
            show ("\"" : String).data = ['"'] from rfl,
            show ("  " : String).data = [' ', ' '] from rfl,
            show ("/" : String).data = ['/'] from rfl,
            show ("" : String).data = [] from rfl])
      · have hh : ∀ c, ('"' :: (rawP ++ '"' :: []) : List Char).head? = some c →
            isWsChar c = false := by
          intro c hc
          simp only [List.head?_cons, Option.some.injEq] at hc
          rw [← hc]; rfl
        have hl : ∀ c, ('"' :: (rawP ++ '"' :: []) : List Char).getLast? = some c →
            isWsChar c = false := by
          intro c hc
          rw [show ('"' :: (rawP ++ '"' :: []) : List Char)
              = ['"'] ++ (rawP ++ '"' :: []) from rfl,
            getLast?_append_right (by simp), getLast?_append_right (by simp)] at hc
          simp only [List.getLast?_singleton, Option.some.injEq] at hc
          rw [← hc]; rfl
        rw [trimList_eq_self hh hl, spm_quoted hq]
        rfl
      · intro c hc
        simp only [List.head?_cons, Option.some.injEq] at hc
        rw [← hc]; rfl
      · intro c hc
        rw [show ('"' :: (rawP ++ '"' :: []) : List Char)
            = ['"'] ++ (rawP ++ '"' :: []) from rfl,
          getLast?_append_right (by simp), getLast?_append_right (by simp)] at hc
        simp only [List.getLast?_singleton, Option.some.injEq] at hc
        rw [← hc]; rfl
    · have hms : ms ≠ [] := hm ms hmeth
      have hmj_nws := joinComma_methods_no_ws ms
      have hmj_ne := joinComma_methods_ne_nil ms hms
      rw [← hmeth]
      refine roundtrip_finish k r i rawP
        ('"' :: (rawP ++ '"' :: ' ' :: ' ' :: (joinComma (ms.map methodToString)).data))
        (some (joinComma (ms.map methodToString)).data)
        ?_ ?_ ?_ ?_ (by simp) hne hpat hflag hisr ?_
      · by_cases hen : r.enabled <;>
          (simp only [serializeRule]
           rw [hraw, if_pos hsp, hmeth]
           dsimp only
           rw [if_neg (show ¬(ms.isEmpty = true) from by simp [List.isEmpty_iff, hms])]
           simp only [String.data_append]
           rw [hraw]
           simp [hen, disabledMarker, List.append_assoc,
            show ("~" : String).data = ['~'] from rfl,
            show ("\"" : String).data = ['"'] from rfl,
            show ("  " : String).data = [' ', ' '] from rfl,
            show ("/" : String).data = ['/'] from rfl,
            show ("" : String).data = [] from rfl])
      · have hh : ∀ c, ('"' :: (rawP ++ '"' :: ' ' :: ' ' ::
            (joinComma (ms.map methodToString)).data) : List Char).head? = some c →
            isWsChar c = false := by
          intro c hc
          simp only [List.head?_cons, Option.some.injEq] at hc
          rw [← hc]; rfl
        have hl : ∀ c, ('"' :: (rawP ++ '"' :: ' ' :: ' ' ::
            (joinComma (ms.map methodToString)).data) : List Char).getLast? = some c →
            isWsChar c = false := by
          intro c hc
          rw [show ('"' :: (rawP ++ '"' :: ' ' :: ' ' ::
                (joinComma (ms.map methodToString)).data) : List Char)
              = ['"'] ++ (rawP ++ '"' :: ' ' :: ' ' ::
                (joinComma (ms.map methodToString)).data) from rfl,
            getLast?_append_right (by simp),
            show ('"' :: ' ' :: ' ' :: (joinComma (ms.map methodToString)).data : List Char)
              = ['"', ' ', ' '] ++ (joinComma (ms.map methodToString)).data from rfl,
            getLast?_append_right (show (['"', ' ', ' ']
              ++ (joinComma (ms.map methodToString)).data : List Char) ≠ [] by simp),
            getLast?_append_right hmj_ne] at hc
          exact getLast?_nonws_of_all hmj_nws c hc
        rw [trimList_eq_self hh hl, spm_quoted hq]
        rw [trimList_sep hmj_nws]
        rw [if_neg (by simp [List.isEmpty_iff, hmj_ne])]
      · intro c hc
        simp only [List.head?_cons, Option.some.injEq] at hc
        rw [← hc]; rfl
      · intro c hc
        rw [show ('"' :: (rawP ++ '"' :: ' ' :: ' ' ::
              (joinComma (ms.map methodToString)).data) : List Char)
            = ['"'] ++ (rawP ++ '"' :: ' ' :: ' ' ::
              (joinComma (ms.map methodToString)).data) from rfl,
          getLast?_append_right (by simp),
          show ('"' :: ' ' :: ' ' :: (joinComma (ms.map methodToString)).data : List Char)
            = ['"', ' ', ' '] ++ (joinComma (ms.map methodToString)).data from rfl,
          getLast?_append_right (show (['"', ' ', ' ']
            ++ (joinComma (ms.map methodToString)).data : List Char) ≠ [] by simp),
          getLast?_append_right hmj_ne] at hc
        exact getLast?_nonws_of_all hmj_nws c hc
      · show (if ((joinComma (ms.map methodToString)).data.isEmpty = true) then none
            else parseMethodsStr (joinComma (ms.map methodToString)).data) = r.methods
        rw [if_neg (by simp [List.isEmpty_iff, hmj_ne]),
          parseMethodsStr_roundtrip ms hms, hmeth]
  · -- The raw pattern has no space and is serialized bare: all its
    -- characters are non-whitespace.
    have hnsp : ¬ ' ' ∈ rawP := by simpa using hsp
    have hnws : ∀ c ∈ rawP, isWsChar c = false := by
      intro c hc
      cases hwc : isWsChar c with
      | false => rfl
      | true => exact absurd (hws c hc hwc ▸ hc) hnsp
    have hhq : rawP.head? ≠ some '"' := by
      intro hcontra
      exact hq '"' (List.mem_of_mem_head? hcontra) rfl
    rcases hmeth : r.methods with _ | ms
    · rw [← hmeth]
      refine roundtrip_finish k r i rawP rawP none
        ?_ ?_ (head?_nonws_of_all hnws) (getLast?_nonws_of_all hnws) hne hne
        hpat hflag hisr (by rw [hmeth])
      · by_cases hen : r.enabled <;>
          (simp only [serializeRule]
           rw [hraw, if_neg hsp, hmeth]
           dsimp only
           simp only [String.data_append]
           rw [hraw]
           simp [hen, disabledMarker, List.append_assoc,
            show ("~" : String).data = ['~'] from rfl,
            show ("\"" : String).data = ['"'] from rfl,
            show ("  " : String).data = [' ', ' '] from rfl,
            show ("/" : String).data = ['/'] from rfl,
            show ("" : String).data = [] from rfl])
      · rw [trimList_eq_self_of_all hnws]
        exact spm_unquoted_none hhq hnws
    · have hms : ms ≠ [] := hm ms hmeth
      have hmj_nws := joinComma_methods_no_ws ms
      have hmj_ne := joinComma_methods_ne_nil ms hms
      rw [← hmeth]
      refine roundtrip_finish k r i rawP
        (rawP ++ ' ' :: ' ' :: (joinComma (ms.map methodToString)).data)
        (some (joinComma (ms.map methodToString)).data)
        ?_ ?_ ?_ ?_ (by simp [hne]) hne hpat hflag hisr ?_
      · by_cases hen : r.enabled <;>
          (simp only [serializeRule]
           rw [hraw, if_neg hsp, hmeth]
           dsimp only
           rw [if_neg (show ¬(ms.isEmpty = true) from by simp [List.isEmpty_iff, hms])]
           simp only [String.data_append]
           rw [hraw]
           simp [hen, disabledMarker, List.append_assoc,
            show ("~" : String).data = ['~'] from rfl,
            show ("\"" : String).data = ['"'] from rfl,
            show ("  " : String).data = [' ', ' '] from rfl,
            show ("/" : String).data = ['/'] from rfl,
            show ("" : String).data = [] from rfl])
      · have hh : ∀ c, (rawP ++ ' ' :: ' ' ::
            (joinComma (ms.map methodToString)).data).head? = some c →
            isWsChar c = false := by
          intro c hc
          rw [head?_append_left hne] at hc
          exact head?_nonws_of_all hnws c hc
        have hl : ∀ c, (rawP ++ ' ' :: ' ' ::
            (joinComma (ms.map methodToString)).data).getLast? = some c →
            isWsChar c = false := by
          intro c hc
          rw [getLast?_append_right (by simp),
            show (' ' :: ' ' :: (joinComma (ms.map methodToString)).data : List Char)
              = [' ', ' '] ++ (joinComma (ms.map methodToString)).data from rfl,
            getLast?_append_right hmj_ne] at hc
          exact getLast?_nonws_of_all hmj_nws c hc
        rw [trimList_eq_self hh hl]
        exact spm_unquoted_methods hhq hne hnws hmj_nws hmj_ne
      · intro c hc
        rw [head?_append_left hne] at hc
        exact head?_nonws_of_all hnws c hc
      · intro c hc
        rw [getLast?_append_right (by simp),
          show (' ' :: ' ' :: (joinComma (ms.map methodToString)).data : List Char)
            = [' ', ' '] ++ (joinComma (ms.map methodToString)).data from rfl,
          getLast?_append_right hmj_ne] at hc
        exact getLast?_nonws_of_all hmj_nws c hc
      · show (if ((joinComma (ms.map methodToString)).data.isEmpty = true) then none
            else parseMethodsStr (joinComma (ms.map methodToString)).data) = r.methods
        rw [if_neg (by simp [List.isEmpty_iff, hmj_ne]),
          parseMethodsStr_roundtrip ms hms, hmeth]

/-- C4: For every matcher kind k and every Rule valid for the
rule-file grammar, parsing the line produced by serializeRule k
reproduces an equivalent rule: same mode, pattern, isRegex,
regexFlags, methods and enabled flag, grouped under the same kind. -/
theorem serialize_parse_roundtrip (k : MatcherKind) (r : FilterRule) (i : Nat)
    (hv : validRuleB r = true) :
    ∃ e, parseRuleLine (serializeRule (kindToString k) r) i = some e
      ∧ e.filterType = k ∧ e.rule.mode = r.mode ∧ e.rule.pattern = r.pattern
      ∧ e.rule.isRegex = r.isRegex ∧ e.rule.regexFlags = r.regexFlags
      ∧ e.rule.methods = r.methods ∧ e.rule.enabled = r.enabled := by
  simp only [validRuleB, Bool.and_eq_true] at hv
  obtain ⟨⟨⟨hvp, hvc⟩, hvr⟩, hvm⟩ := hv
  have hpne : r.pattern.data ≠ [] := by simpa [List.isEmpty_iff] using hvp
  have hvc' : ∀ c ∈ r.pattern.data, charOkPattern c = true := by
    simpa [List.all_eq_true] using hvc
  have hpq : ∀ c ∈ r.pattern.data, c ≠ '"' := by
    intro c hc heq
    have h := hvc' c hc
    rw [heq] at h
    exact absurd h (by decide)
  have hpw : ∀ c ∈ r.pattern.data, isWsChar c = true → c = ' ' := by
    intro c hc hwc
    have h := hvc' c hc
    simp only [charOkPattern, Bool.and_eq_true, hwc, Bool.not_true,
      Bool.false_or, decide_eq_true_eq] at h
    exact h.2
  have hmth : ∀ ms, r.methods = some ms → ms ≠ [] := by
    intro ms hms
    rw [hms] at hvm
    simpa [List.isEmpty_iff] using hvm
  by_cases hreg : r.isRegex
  · rw [if_pos hreg] at hvr
    cases hfl : r.regexFlags with
    | none =>
      rw [hfl] at hvr
      simp only [List.isEmpty_iff] at hvr
      have hext : extractFlags r.pattern.data = (r.pattern.data, []) :=
        extractFlags_no_suffix hvr
      rw [← hfl]
      refine roundtrip_assemble k r i ('~' :: r.pattern.data) (by simp)
        ?_ ?_ ?_ ?_ ?_ ?_ hmth
      · intro c hc
        rcases List.mem_cons.1 hc with h | h
        · rw [h]; decide
        · exact hpq c h
      · intro c hc hwc
        rcases List.mem_cons.1 hc with h | h
        · rw [h] at hwc; exact absurd hwc (by decide)
        · exact hpw c h hwc
      · simp [hreg, hfl, String.data_append,
          show ("~" : String).data = ['~'] from rfl,
          show ("" : String).data = [] from rfl]
      · rw [if_pos (show ('~' :: r.pattern.data).head? = some '~' from rfl)]
        simp [hext]
      · rw [if_pos (show ('~' :: r.pattern.data).head? = some '~' from rfl)]
        simp [hext, hfl]
      · simp [hreg]
    | some f =>
      rw [hfl] at hvr
      rw [← hfl]
      simp only [Bool.and_eq_true] at hvr
      obtain ⟨hf1, hf2⟩ := hvr
      have hfne : f.data ≠ [] := by simpa [List.isEmpty_iff] using hf1
      have hfall : ∀ c ∈ f.data, isFlagChar c = true := by
        simpa [List.all_eq_true] using hf2
      have hfstr : (f != "") = true := by
        simp only [bne_iff_ne, ne_eq]
        intro h
        exact hfne (by rw [h])
      have hflagq : ∀ c, isFlagChar c = true → c ≠ '"' := by
        intro c hc heq
        rw [heq] at hc
        exact absurd hc (by decide)
      have hflagw : ∀ c, isFlagChar c = true → isWsChar c = false := by
        intro c hc
        simp only [isFlagChar, Bool.or_eq_true, decide_eq_true_eq] at hc
        rcases hc with ((((h | h) | h) | h) | h) | h <;> rw [h] <;> rfl
      have hext : extractFlags (r.pattern.data ++ '/' :: f.data)
          = (r.pattern.data, f.data) := extractFlags_suffix hfne hfall
      refine roundtrip_assemble k r i
        ('~' :: (r.pattern.data ++ '/' :: f.data)) (by simp)
        ?_ ?_ ?_ ?_ ?_ ?_ hmth
      · intro c hc
        rcases List.mem_cons.1 hc with h | h
        · rw [h]; decide
        · rcases List.mem_append.1 h with h2 | h2
          · exact hpq c h2
          · rcases List.mem_cons.1 h2 with h3 | h3
            · rw [h3]; decide
            · exact hflagq c (hfall c h3)
      · intro c hc hwc
        rcases List.mem_cons.1 hc with h | h
        · rw [h] at hwc; exact absurd hwc (by decide)
        · rcases List.mem_append.1 h with h2 | h2
          · exact hpw c h2 hwc
          · rcases List.mem_cons.1 h2 with h3 | h3
            · rw [h3] at hwc; exact absurd hwc (by decide)
            · rw [hflagw c (hfall c h3)] at hwc
              exact absurd hwc (by decide)
      · simp [hreg, hfl, hfstr, String.data_append, List.append_assoc,
          show ("~" : String).data = ['~'] from rfl,
          show ("/" : String).data = ['/'] from rfl]
      · rw [if_pos (show ('~' :: (r.pattern.data ++ '/' :: f.data)).head?
            = some '~' from rfl)]
        simp [hext]
      · rw [if_pos (show ('~' :: (r.pattern.data ++ '/' :: f.data)).head?
            = some '~' from rfl)]
        simp only [List.drop_succ_cons, List.drop_zero, hext]
        rw [if_neg (by simp [List.isEmpty_iff, hfne]), hfl]
      · simp [hreg]
  · rw [if_neg hreg] at hvr
    simp only [Bool.and_eq_true, bne_iff_ne, ne_eq, Option.isNone_iff_eq_none] at hvr
    obtain ⟨hh, hflnone⟩ := hvr
    refine roundtrip_assemble k r i r.pattern.data hpne hpq hpw
      ?_ ?_ ?_ ?_ hmth
    · simp [hreg]
    · rw [if_neg hh]
    · rw [if_neg hh]
      simp [hflnone]
    · simp [hh, show r.isRegex = false by simpa using hreg]

/-! ## Concrete witness data -/

def wRuleTag : FilterRule :=
  ⟨"w-tag", .deny, "#secret", false, true, "w", none, none⟩

def wRuleKw : FilterRule :=
  ⟨"w-kw", .deny, "password", false, true, "w", none, none⟩

def wRuleFolderGet : FilterRule :=
  ⟨"w-folder", .allow, "A/doc.md", false, true, "w", some [.GET], none⟩

def wRuleFolder : FilterRule :=
  ⟨"w-folder2", .allow, "A/doc.md", false, true, "w", none, none⟩

def wRulePost : FilterRule :=
  ⟨"w-post", .deny, "A/doc.md", false, true, "w", none, none⟩

def wRuleDisabled : FilterRule :=
  ⟨"w-dis", .deny, "A/doc.md", false, false, "w", none, none⟩

def wRuleRegex : FilterRule :=
  ⟨"w-re", .deny, "(", true, true, "w", none, none⟩

def wTagAllow : FilterRule :=
  ⟨"w-t2", .allow, "#AI-Deny", false, true, "w", none, none⟩

def wEnvTags : Env :=
  ⟨fun _ => true, fun _ => some ⟨["#AI-Deny"], none⟩, fun _ => some "",
    fun _ _ => false, fun _ => none⟩

def wEnvMiss : Env :=
  ⟨fun _ => true, fun _ => none, fun _ => some "", fun _ _ => false, fun _ => none⟩

def wEnvErr : Env :=
  ⟨fun _ => true, fun _ => some ⟨[], none⟩, fun _ => none, fun _ _ => false, fun _ => none⟩

def wEnvNone : Env :=
  ⟨fun _ => false, fun _ => none, fun _ => none, fun _ _ => false, fun _ => none⟩

def wEnvGlob : Env :=
  ⟨fun _ => false, fun _ => none, fun _ => none, fun p pat => p == pat, fun _ => none⟩

def wSettings : FilterSettings := ⟨FilterMode.deny, "", ""⟩

def wFr3 : ParsedRules := ⟨[wRuleFolderGet], [], [], []⟩

def wFrTag : ParsedRules := ⟨[], [], [wRuleTag], []⟩

def wFrKw : ParsedRules := ⟨[], [], [], [wRuleKw]⟩

def wRule4 : FilterRule :=
  ⟨"w4", FilterMode.deny, "00 Work/**", false, true, "w",
    some [HttpMethod.GET, HttpMethod.POST], none⟩

def wContent : String := "#!disabled deny folder X/**\nallow folder A/**"

def wParsedRule : FilterRule :=
  ⟨"rule-line-2", .allow, "A/**", false, true, "line 2", none, none⟩

/-- Witness for C1 at a candidate carrying the global deny tag. -/
theorem global_tags_override_witness :
    collectFileTags wEnvTags "a.md" = TagResult.found ["#ai-deny"]
    ∧ ("#ai-deny" : String) ≠ ""
    ∧ (["#ai-deny"] : List String).contains (lowerStr "#ai-deny") = true
    ∧ (evaluateFile wEnvTags "a.md" ⟨FilterMode.allow, "#ai-allow", "#ai-deny"⟩
        (some "GET") none).allowed = false :=
  ⟨rfl, by decide, rfl,
    (global_tags_override wEnvTags "a.md" ⟨FilterMode.allow, "#ai-allow", "#ai-deny"⟩
      (some "GET") none ["#ai-deny"] rfl).1 (by decide) rfl⟩

/-- Witness for C2 at a metadata-less, an unreadable and a missing
candidate. -/
theorem fail_closed_stages_witness :
    (∃ d, checkGlobalTags wEnvMiss "a.md" "#ai-allow" "#ai-deny" = some d
      ∧ d.allowed = false ∧ hasSub "unavailable".data d.reason.data = true
      ∧ d.matchedRule = none)
    ∧ checkTagFilter wEnvMiss "a.md" [wRuleTag] = some tagUnavailableDecision
    ∧ checkKeywordFilter wEnvErr "a.md" [wRuleKw] = some readErrorDecision
    ∧ checkGlobalTags wEnvNone "a.md" "#ai-allow" "#ai-deny" = none
    ∧ checkTagFilter wEnvNone "a.md" [wRuleTag] = none
    ∧ checkKeywordFilter wEnvNone "a.md" [wRuleKw] = none :=
  ⟨fail_closed_stages.1 wEnvMiss "a.md" "#ai-allow" "#ai-deny" rfl (Or.inl (by decide)),
    (fail_closed_stages.2.1 wEnvMiss "a.md" [wRuleTag] rfl (by decide)).1,
    (fail_closed_stages.2.2.1 wEnvErr "a.md" [wRuleKw] rfl rfl (by decide)).1,
    (fail_closed_stages.2.2.2.1 wEnvNone "a.md" "#ai-allow" "#ai-deny" [wRuleTag] rfl).1,
    (fail_closed_stages.2.2.2.1 wEnvNone "a.md" "#ai-allow" "#ai-deny" [wRuleTag] rfl).2,
    fail_closed_stages.2.2.2.2 wEnvNone "a.md" [wRuleKw] rfl⟩

/-- Witness for C3 at a folder rule scoped to GET evaluated with PUT. -/
theorem method_mismatch_falls_through_witness :
    ("PUT" : String) ≠ ""
    ∧ rulesOf wFr3 MatcherKind.folder ≠ []
    ∧ runMatcher wEnvGlob "A/doc.md" (rulesOf wFr3 MatcherKind.folder) MatcherKind.folder
        = some (folderDecision wRuleFolderGet)
    ∧ methodAllowed (folderDecision wRuleFolderGet).matchedRule "PUT" = false
    ∧ evaluateFile wEnvGlob "A/doc.md" wSettings (some "PUT") (some wFr3)
        = evaluateFile wEnvGlob "A/doc.md" wSettings (some "PUT")
            (some (clearKind wFr3 MatcherKind.folder)) :=
  ⟨by decide, by decide, rfl, by decide,
    method_mismatch_falls_through wEnvGlob "A/doc.md" wSettings "PUT" wFr3
      MatcherKind.folder (folderDecision wRuleFolderGet) (by decide) rfl (by decide)⟩

/-- Witness for C4 at a quoted folder rule with methods. -/
theorem serialize_parse_roundtrip_witness :
    validRuleB wRule4 = true
    ∧ ∃ e, parseRuleLine (serializeRule (kindToString MatcherKind.folder) wRule4) 0 = some e
      ∧ e.filterType = MatcherKind.folder ∧ e.rule.mode = wRule4.mode
      ∧ e.rule.pattern = wRule4.pattern ∧ e.rule.isRegex = wRule4.isRegex
      ∧ e.rule.regexFlags = wRule4.regexFlags ∧ e.rule.methods = wRule4.methods
      ∧ e.rule.enabled = wRule4.enabled :=
  ⟨by decide, serialize_parse_roundtrip MatcherKind.folder wRule4 0 (by decide)⟩

/-- Witness for C6 at a matching folder rule after a disabled rule
and before a contrary rule, and at a matching tag rule before a
contrary rule. -/
theorem first_match_wins_witness :
    wRuleFolder.enabled = true
    ∧ folderRuleMatched wEnvGlob "A/doc.md" wRuleFolder = true
    ∧ checkFolderFilter wEnvGlob "A/doc.md" ([wRuleDisabled] ++ wRuleFolder :: [wRulePost])
        = some (folderDecision wRuleFolder)
    ∧ checkTagFilter wEnvTags "a.md" ([] ++ wTagAllow :: [wRulePost])
        = some (tagDecision wTagAllow) :=
  ⟨rfl, rfl,
    first_match_wins.1 wEnvGlob "A/doc.md" [wRuleDisabled] wRuleFolder [wRulePost] rfl rfl
      (by
        intro q hq
        simp only [List.mem_singleton] at hq
        subst hq
        exact Or.inl rfl),
    first_match_wins.2 wEnvTags "a.md" ["#ai-deny"] [] wTagAllow [wRulePost] rfl rfl rfl
      (by intro q hq; simp at hq)⟩

/-- Witness for C7 at a config with one disabled and one enabled
line, and at a matcher list holding a disabled rule. -/
theorem disabled_rules_inert_witness :
    wParsedRule ∈ rulesOf (parseRulesFile wContent).1 MatcherKind.folder
    ∧ wParsedRule.enabled = true
    ∧ checkFolderFilter wEnvGlob "A/doc.md" [wRuleDisabled]
        = checkFolderFilter wEnvGlob "A/doc.md" ([wRuleDisabled].filter (·.enabled)) :=
  ⟨by decide,
    disabled_rules_inert.1 wContent MatcherKind.folder wParsedRule (by decide),
    disabled_rules_inert.2.1 wEnvGlob "A/doc.md" [wRuleDisabled]⟩

/-- Witness for C9 at a rule whose pattern fails to compile. -/
theorem invalid_regex_skipped_witness :
    wRuleRegex.isRegex = true
    ∧ wEnvGlob.regexCompile wRuleRegex.pattern = none
    ∧ checkFolderFilter wEnvGlob "A/doc.md" ([] ++ wRuleRegex :: [wRuleFolder])
        = checkFolderFilter wEnvGlob "A/doc.md" ([] ++ [wRuleFolder]) :=
  ⟨rfl, rfl,
    (invalid_regex_skipped wEnvGlob "A/doc.md" wRuleRegex [] [wRuleFolder] rfl rfl).1⟩

/-- Witness for C10 at the DELETE method for both fail-closed
denials. -/
theorem fail_closed_unscoped_witness :
    methodAllowed none "DELETE" = true
    ∧ evaluateFile wEnvMiss "a.md" wSettings (some "DELETE") (some wFrTag)
        = tagUnavailableDecision
    ∧ evaluateFile wEnvErr "a.md" wSettings (some "DELETE") (some wFrKw)
        = readErrorDecision :=
  ⟨fail_closed_unscoped.2.2.1 "DELETE",
    fail_closed_unscoped.2.2.2.1 wEnvMiss "a.md" wSettings wFrTag "DELETE"
      rfl rfl rfl rfl rfl (by decide),
    fail_closed_unscoped.2.2.2.2 wEnvErr "a.md" wSettings wFrKw "DELETE"
      rfl rfl rfl rfl rfl rfl rfl (by decide)⟩

end ObsidianFilters
